import Mathlib

/-!
# Knock-knock joke server and client

A shallow embedding of `trim`, `iequals`, `send_line`, `recv_line`,
`client_thread` and the loading and accept loops of `main` of
`src/1/server.cpp`, and of `receive_messages` and `send_messages` of
`src/1/client.cpp`, followed by the properties of the dialogue.

A C++ `std::string` is a list of characters.  The socket is modelled by what it
does to the program: every `send_line` call has an outcome (success or failure)
and is recorded, every `recv_line` call returns the next line of the peer.
-/

namespace KnockKnock

/-- A `std::string`. -/
abbrev Str := List Char

/-! ## String helpers (server.cpp lines 32-46) -/

/-- The C-locale `isspace`: space, `\t`, `\n`, `\v`, `\f`, `\r`. -/
def isspace (c : Char) : Bool :=
  c.toNat = 32 || (9 ≤ c.toNat && c.toNat ≤ 13)

/-- The C-locale `tolower`: `A`..`Z` are mapped to `a`..`z`, everything else is kept. -/
def tolower (c : Char) : Char :=
  if 65 ≤ c.toNat ∧ c.toNat ≤ 90 then Char.ofNat (c.toNat + 32) else c

/-- First loop of `trim`: `while (a < b && isspace(s[a])) ++a;`.
The first argument bounds the number of iterations. -/
def trim_front (s : Str) (b : Nat) : Nat → Nat → Nat
  | 0, a => a
  | fuel + 1, a =>
    if a < b ∧ isspace (s.getD a ' ') = true then trim_front s b fuel (a + 1) else a

/-- Second loop of `trim`: `while (b > a && isspace(s[b - 1])) --b;`,
by recursion on `b`. -/
def trim_back (s : Str) (a : Nat) : Nat → Nat
  | 0 => 0
  | b + 1 =>
    if b + 1 > a ∧ isspace (s.getD b ' ') = true then trim_back s a b else b + 1

/-- The function `trim`: `s.substr(a, b - a)` after the two loops. -/
def trim (s : Str) : Str :=
  let a := trim_front s s.length s.length 0
  let b := trim_back s a s.length
  (s.drop a).take (b - a)

/-- The function `iequals`: equal sizes, and equal characters up to `tolower`
at every index. -/
def iequals (a b : Str) : Bool :=
  if a.length ≠ b.length then false
  else (List.range a.length).all fun i => tolower (a.getD i ' ') == tolower (b.getD i ' ')

/-! ## `recv_line` on the incoming byte stream (server.cpp lines 63-74) -/

/-- The loop of `recv_line`.  `res` is the string read so far, the list is what
the peer still delivers before its stream ends.  `recv` returning `<= 0` is the
end of the list.  The result is the returned string and the rest of the stream. -/
def recv_loop : Str → List Char → Str × List Char
  | _, [] => ([], [])
  | res, c :: rest =>
    if c = '\n' then (trim res, rest)
    else if (res ++ [c]).length > 2000 then (trim (res ++ [c]), rest)
    else recv_loop (res ++ [c]) rest

/-- The function `recv_line`, on the bytes the peer still delivers. -/
def recv_line (stream : List Char) : Str × List Char :=
  recv_loop [] stream

/-- The results of all `recv_line` calls that can be made on a byte stream, in
order, until the stream ends (`res` is the string read so far). -/
def deliver : Str → List Char → List Str
  | _, [] => []
  | res, c :: rest =>
    if c = '\n' then trim res :: deliver [] rest
    else if (res ++ [c]).length > 2000 then trim (res ++ [c]) :: deliver [] rest
    else deliver (res ++ [c]) rest

/-! ## The socket as seen by `client_thread` -/

/-- What happens on the connection. -/
inductive Event where
  | send (line : Str) (ok : Bool)
  | recv (resp : Str)
  | close
  deriving DecidableEq, Repr

/-- The connection of one session.
* `inbox`: the results of the `recv_line` calls still to come, until the peer's
  stream ends (`deliver` computes them from the raw bytes); afterwards every
  `recv_line` returns the empty string;
* `sendOk`: the outcomes of the `send_line` calls still to come; afterwards
  every send succeeds;
* `log`: what has happened on the connection so far. -/
structure Sock where
  inbox : List Str
  sendOk : List Bool
  log : List Event
  deriving DecidableEq, Repr

/-- The function `send_line` as seen by the session: the line is handed to the
connection and the call reports success or failure. -/
def Sock.send_line (s : Sock) (line : Str) : Bool × Sock :=
  (s.sendOk.headD true,
   { s with sendOk := s.sendOk.tail, log := s.log ++ [Event.send line (s.sendOk.headD true)] })

/-- The function `recv_line` as seen by the session: the next line of the peer,
or the empty string when the stream has ended. -/
def Sock.recv_line (s : Sock) : Str × Sock :=
  (s.inbox.headD [],
   { s with inbox := s.inbox.tail, log := s.log ++ [Event.recv (s.inbox.headD [])] })

/-- The lines handed to `send_line`, in order. -/
def sent_lines : List Event → List Str
  | [] => []
  | Event.send line _ :: es => line :: sent_lines es
  | _ :: es => sent_lines es

/-! ## Protocol literals -/

def knock : Str := "Knock knock!".toList
def whos_there : Str := "Who's there?".toList
def say_whos_there : Str := "You are supposed to say, \"Who's there?\". Let's try again.".toList
def who : Str := " who?".toList
def another : Str := "Would you like to listen to another? (Y/N)".toList
def no_more : Str := "I have no more jokes to tell.".toList
def yes : Str := "Y".toList

/-- The reminder of the inner loop:
`"You are supposed to say, \"" + expected + "\". Let's try again."`. -/
def remind (expected : Str) : Str :=
  "You are supposed to say, \"".toList ++ expected ++ "\". Let's try again.".toList

/-- The setup line as sent (lines 119-121): a `.` is appended unless the setup
is empty or already ends in `.` or `!`. -/
def setup_msg (setup : Str) : Str :=
  if !setup.isEmpty ∧ setup.getLast? ≠ some '.' ∧ setup.getLast? ≠ some '!' then setup ++ ['.']
  else setup

/-! ## `client_thread` (server.cpp lines 77-169) -/

/-- Why the dialogue loop was left. -/
inductive Exit where
  | exhausted     -- line 98: the plan is used up
  | send_failed   -- lines 106, 122
  | empty_read    -- lines 109, 125, 151
  | declined      -- line 157
  | out_of_range  -- an access outside `idx` or `jokes`
  | out_of_fuel   -- the iteration bound of the embedding was reached
  deriving DecidableEq, Repr

/-- How one pass through the body of `while (true)` ends. -/
inductive Flow where
  | brk (why : Exit)
  | cont
  deriving DecidableEq, Repr

/-- The inner loop `while (!iequals(resp, expected))` (lines 129-138).  Returns
the last reply and the connection, `none` when the iteration bound is reached. -/
def who_loop (expected : Str) : Nat → Str → Sock → Option (Str × Sock)
  | 0, _, _ => none
  | fuel + 1, resp, s =>
    if !iequals resp expected then
      let s := (s.send_line (remind expected)).2
      let s := (s.send_line knock).2
      let r := s.recv_line
      if r.1.isEmpty then some (r.1, r.2)
      else who_loop expected fuel r.1 r.2
    else some (resp, s)

/-- Lines 150-158: read the answer to the continue prompt. -/
def ask_another (pos : Nat) (s : Sock) : Flow × Nat × Sock :=
  let r := s.recv_line
  if r.1.isEmpty then (Flow.brk Exit.empty_read, pos, r.2)
  else if iequals r.1 yes then (Flow.cont, pos + 1, r.2)
  else (Flow.brk Exit.declined, pos, r.2)

/-- One pass through the body of `while (true)` (lines 96-158), from the cursor
`pos` (`next_joke_pos`): how the pass ends, the cursor and the connection. -/
def joke_round (jokes : List (Str × Str)) (idx : List Nat) (pos : Nat) (s : Sock) :
    Flow × Nat × Sock :=
  if idx.length ≤ pos then
    (Flow.brk Exit.exhausted, pos, (s.send_line no_more).2)
  else
    match idx[pos]? with
    | none => (Flow.brk Exit.out_of_range, pos, s)
    | some jidx =>
      match jokes[jidx]? with
      | none => (Flow.brk Exit.out_of_range, pos, s)
      | some (setup, punch) =>
        let k := s.send_line knock
        if !k.1 then (Flow.brk Exit.send_failed, pos, k.2)
        else
          let r := k.2.recv_line
          if r.1.isEmpty then (Flow.brk Exit.empty_read, pos, r.2)
          else if !iequals r.1 whos_there then
            (Flow.cont, pos, (r.2.send_line say_whos_there).2)
          else
            let m := r.2.send_line (setup_msg setup)
            if !m.1 then (Flow.brk Exit.send_failed, pos, m.2)
            else
              let r := m.2.recv_line
              if r.1.isEmpty then (Flow.brk Exit.empty_read, pos, r.2)
              else
                match who_loop (setup ++ who) (r.2.inbox.length + 1) r.1 r.2 with
                | none => (Flow.brk Exit.out_of_fuel, pos, r.2)
                | some w =>
                  let s := (w.2.send_line punch).2
                  let s := (s.send_line another).2
                  ask_another pos s

/-- The result of a session. -/
structure Outcome where
  sock : Sock
  pos : Nat
  exit : Exit
  deriving DecidableEq, Repr

/-- The loop `while (true)` of `client_thread` (lines 95-159). -/
def joke_loop (jokes : List (Str × Str)) (idx : List Nat) : Nat → Nat → Sock → Outcome
  | 0, pos, s => ⟨s, pos, Exit.out_of_fuel⟩
  | fuel + 1, pos, s =>
    match joke_round jokes idx pos s with
    | (Flow.brk why, pos, s) => ⟨s, pos, why⟩
    | (Flow.cont, pos, s) => joke_loop jokes idx fuel pos s

/-- The dialogue loop from a cursor, with an iteration bound that is never
reached: every pass that continues has read a line of the peer. -/
def run (jokes : List (Str × Str)) (idx : List Nat) (pos : Nat) (s : Sock) : Outcome :=
  joke_loop jokes idx (s.inbox.length + 1) pos s

/-- What the loop does after one pass through its body. -/
def after_round (jokes : List (Str × Str)) (idx : List Nat) : Flow × Nat × Sock → Outcome
  | (Flow.brk why, pos, s) => ⟨s, pos, why⟩
  | (Flow.cont, pos, s) => run jokes idx pos s

/-- The function `client_thread` for the plan `idx` drawn by `shuffle`: the
dialogue loop from `next_joke_pos = 0`, then `close(client_sock)`. -/
def client_thread (jokes : List (Str × Str)) (idx : List Nat) (s : Sock) : Outcome :=
  let r := run jokes idx 0 s
  { r with sock := { r.sock with log := r.sock.log ++ [Event.close] } }

/-- The replies of a fully cooperative client to the jokes of a plan. -/
def coop_replies (jokes : List (Str × Str)) (plan : List Nat) : List Str :=
  plan.flatMap fun j =>
    match jokes[j]? with
    | some (setup, _) => [whos_there, setup ++ who, yes]
    | none => []

/-- The four lines of each joke of a plan, in plan order. -/
def told (jokes : List (Str × Str)) (plan : List Nat) : List Str :=
  plan.flatMap fun j =>
    match jokes[j]? with
    | some (setup, punch) => [knock, setup_msg setup, punch, another]
    | none => []

/-- The events of the dialogue with a fully cooperative client, per joke of a plan. -/
def coop_events (jokes : List (Str × Str)) (plan : List Nat) : List Event :=
  plan.flatMap fun j =>
    match jokes[j]? with
    | some (setup, punch) =>
      [Event.send knock true, Event.recv whos_there, Event.send (setup_msg setup) true,
       Event.recv (setup ++ who), Event.send punch true, Event.send another true,
       Event.recv yes]
    | none => []

/-- The one-joke store of the scenario. -/
def lettuce : List (Str × Str) :=
  [("Lettuce".toList, "Lettuce in, it's cold out here!".toList)]

/-! ## Loading the jokes (server.cpp lines 185-193) -/

/-- The loading loop of `main`, on the lines that successive `getline` calls
return until the file ends: lines are taken two at a time, both are trimmed,
and the pair is stored when the first is not empty. -/
def load_jokes : List Str → List (Str × Str)
  | line1 :: line2 :: rest =>
    if !(trim line1).isEmpty then (trim line1, trim line2) :: load_jokes rest
    else load_jokes rest
  | _ => []

/-! ## The accept loop (server.cpp lines 233-265) -/

/-- What `select` reports in one pass of the accept loop (line 242), and when a
connection is ready, whether `accept` succeeds (line 257). -/
inductive Wait where
  | failed                     -- `activity < 0`
  | timed_out                  -- `activity == 0`
  | ready (accepted : Bool)    -- `activity > 0`
  deriving DecidableEq, Repr

/-- How one pass of the accept loop ends. -/
inductive Pass where
  | leave      -- `break` (lines 246 and 251)
  | go_on      -- next pass, nothing started
  | spawn      -- a session thread is started (line 262), next pass
  deriving DecidableEq, Repr

/-- One pass through the body of the accept loop, for the outcome of the wait
and the value of `active_clients` read at line 249. -/
def accept_step (w : Wait) (active_clients : Int) : Pass :=
  match w with
  | Wait.failed => Pass.leave
  | Wait.timed_out => if active_clients = 0 then Pass.leave else Pass.go_on
  | Wait.ready false => Pass.go_on
  | Wait.ready true => Pass.spawn

/-- The accept loop on a sequence of wait outcomes with the session count seen
at each: the number of sessions started and whether the loop was left. -/
def accept_loop : List (Wait × Int) → Nat × Bool
  | [] => (0, false)
  | (w, n) :: rest =>
    match accept_step w n with
    | Pass.leave => (0, true)
    | Pass.go_on => accept_loop rest
    | Pass.spawn => ((accept_loop rest).1 + 1, (accept_loop rest).2)

/-! ## The cursor along a session -/

/-- Whether the event `e`, followed by the events `es`, is the send of the
continue prompt answered by a non-empty reply that is "Y" up to case. -/
def yes_here : Event → List Event → Nat
  | Event.send line _, Event.recv r :: _ =>
    if line = another ∧ r ≠ [] ∧ iequals r yes = true then 1 else 0
  | _, _ => 0

/-- The number of "Y" answers to the continue prompt in a log. -/
def yes_count : List Event → Nat
  | [] => 0
  | e :: es => yes_here e es + yes_count es

/-- The cursor and the connection at the top of the loop after `k` passes that
continued, `none` when the loop was left before. -/
def loop_state (jokes : List (Str × Str)) (idx : List Nat) :
    Nat → Nat → Sock → Option (Nat × Sock)
  | 0, pos, s => some (pos, s)
  | k + 1, pos, s =>
    match joke_round jokes idx pos s with
    | (Flow.cont, p, t) => loop_state jokes idx k p t
    | (Flow.brk _, _, _) => none

/-! ## The client (client.cpp lines 69-159)

The two duties of the client run concurrently on the shared `ready_to_send` and
`running`, under one mutex.  Their interleavings are the sequences of moves of
a step function: each move lets one duty take its next step, with the results
of the calls it makes to the outside (`recv_line`, `has_pending_data`,
`getline`, `send_line`).  A step that needs the mutex while the other duty
holds it does nothing. -/

/-- Where `receive_messages` stands. -/
inductive RecvPc where
  | head                   -- line 70: `while (running)`
  | recv                   -- line 71: in `recv_line`
  | got (msg : Str)        -- lines 72-92: the message is read, the mutex is needed
  | inner_head             -- line 97: `while (more_messages && running)`, `more_messages` true
  | peek                   -- line 98: in `has_pending_data`
  | recv_next              -- line 100: in `recv_line`
  | got_next (msg : Str)   -- lines 101-119: the message is read, the mutex is needed
  | ready_check            -- line 127: `if (running)`
  | set_ready              -- lines 128-130: the mutex is needed
  | done
  deriving DecidableEq, Repr

/-- Where `send_messages` stands. -/
inductive SendPc where
  | head                   -- line 136: `while (running)`
  | wait                   -- lines 137-140: in `cv.wait`
  | input                  -- line 144: in `getline`, holding the mutex
  | send_n                 -- line 145: end of input, about to send "N"
  | send (line : Str)      -- line 151: about to send the trimmed line
  | clear                  -- line 157
  | done
  deriving DecidableEq, Repr

/-- What the client does that can be observed. -/
inductive ClientEvent where
  | shown (msg : Str)            -- a line of the server is displayed
  | closed                       -- an empty read is reported
  | peek (more : Bool)           -- the result of `has_pending_data`
  | ready_set                    -- `ready_to_send = true`
  | sent (line : Str) (ok : Bool) -- a line of the operator is handed to `send_line`
  | sent_n (ok : Bool)           -- "N" is handed to `send_line` at the end of input
  | cleared                      -- `ready_to_send = false`
  deriving DecidableEq, Repr

/-- The state of the client: the two shared variables, the position of each
duty, and the events so far, the newest first. -/
structure Client where
  ready_to_send : Bool
  running : Bool
  rpc : RecvPc
  spc : SendPc
  trace : List ClientEvent
  deriving DecidableEq, Repr

/-- The send duty holds the mutex from the return of `cv.wait` to the end of
the loop body (the `unique_lock` of line 137). -/
def holds_mutex : SendPc → Bool
  | SendPc.input => true
  | SendPc.send_n => true
  | SendPc.send _ => true
  | SendPc.clear => true
  | _ => false

/-- Lines 72-92 and 101-119, under the mutex: an empty message ends the receive
duty, every other message is displayed, and the sentinel ends the duty. -/
def show_msg (c : Client) (msg : Str) : Client :=
  if msg.isEmpty then
    { c with running := false, rpc := RecvPc.done, trace := ClientEvent.closed :: c.trace }
  else if msg = no_more then
    { c with running := false, rpc := RecvPc.done, trace := ClientEvent.shown msg :: c.trace }
  else
    { c with rpc := RecvPc.inner_head, trace := ClientEvent.shown msg :: c.trace }

/-- One step of `receive_messages`; `line` is what `recv_line` returns if it is
called in this step, `pending` what `has_pending_data` returns. -/
def recv_step (c : Client) (line : Str) (pending : Bool) : Client :=
  match c.rpc with
  | RecvPc.head =>
    if c.running then { c with rpc := RecvPc.recv } else { c with rpc := RecvPc.done }
  | RecvPc.recv => { c with rpc := RecvPc.got line }
  | RecvPc.got msg => if holds_mutex c.spc then c else show_msg c msg
  | RecvPc.inner_head =>
    if c.running then { c with rpc := RecvPc.peek } else { c with rpc := RecvPc.ready_check }
  | RecvPc.peek =>
    if pending then
      { c with rpc := RecvPc.recv_next, trace := ClientEvent.peek true :: c.trace }
    else
      { c with rpc := RecvPc.ready_check, trace := ClientEvent.peek false :: c.trace }
  | RecvPc.recv_next => { c with rpc := RecvPc.got_next line }
  | RecvPc.got_next msg => if holds_mutex c.spc then c else show_msg c msg
  | RecvPc.ready_check =>
    if c.running then { c with rpc := RecvPc.set_ready } else { c with rpc := RecvPc.head }
  | RecvPc.set_ready =>
    if holds_mutex c.spc then c
    else { c with ready_to_send := true, rpc := RecvPc.head,
                  trace := ClientEvent.ready_set :: c.trace }
  | RecvPc.done => c

/-- One step of `send_messages`; `typed` is what `getline` reads if it is called
in this step (`none` at the end of input), `ok` what `send_line` returns. -/
def send_step (c : Client) (typed : Option Str) (ok : Bool) : Client :=
  match c.spc with
  | SendPc.head =>
    if c.running then { c with spc := SendPc.wait } else { c with spc := SendPc.done }
  | SendPc.wait =>
    if c.ready_to_send || !c.running then
      if !c.running then { c with spc := SendPc.done } else { c with spc := SendPc.input }
    else c
  | SendPc.input =>
    match typed with
    | none => { c with spc := SendPc.send_n }
    | some l => { c with spc := SendPc.send (trim l) }
  | SendPc.send_n =>
    { c with running := false, spc := SendPc.done, trace := ClientEvent.sent_n ok :: c.trace }
  | SendPc.send l =>
    if ok then { c with spc := SendPc.clear, trace := ClientEvent.sent l true :: c.trace }
    else { c with running := false, spc := SendPc.done,
                  trace := ClientEvent.sent l false :: c.trace }
  | SendPc.clear =>
    { c with ready_to_send := false, spc := SendPc.head,
             trace := ClientEvent.cleared :: c.trace }
  | SendPc.done => c

/-- A move of the scheduler: which duty steps, with the results of its calls. -/
inductive Move where
  | recv_duty (line : Str) (pending : Bool)
  | send_duty (typed : Option Str) (ok : Bool)
  deriving DecidableEq, Repr

def client_step (c : Client) : Move → Client
  | Move.recv_duty line pending => recv_step c line pending
  | Move.send_duty typed ok => send_step c typed ok

/-- The client after a sequence of moves. -/
def client_run (c : Client) : List Move → Client
  | [] => c
  | m :: ms => client_run (client_step c m) ms

/-- The client when both duties start (lines 17, 20, 187, 188). -/
def client_start : Client :=
  ⟨false, true, RecvPc.head, SendPc.head, []⟩

/-- The events of the receive duty. -/
def is_recv_event : ClientEvent → Bool
  | ClientEvent.shown _ => true
  | ClientEvent.closed => true
  | ClientEvent.peek _ => true
  | ClientEvent.ready_set => true
  | _ => false

/-- The events in which a line is handed to `send_line`. -/
def is_sent : ClientEvent → Bool
  | ClientEvent.sent _ _ => true
  | ClientEvent.sent_n _ => true
  | _ => false

/-- The sends of an operator line that succeeded. -/
def is_sent_ok : ClientEvent → Bool
  | ClientEvent.sent _ true => true
  | _ => false

/-- The receive duty has reported an empty read or displayed the sentinel. -/
def is_end : ClientEvent → Bool
  | ClientEvent.closed => true
  | ClientEvent.shown msg => msg = no_more
  | _ => false

/-- The newest events of the receive duty are a displayed line and then a
pending-data check that returned false (traces are newest first). -/
def after_peek_false (t : List ClientEvent) : Bool :=
  match t.filter is_recv_event with
  | ClientEvent.peek false :: ClientEvent.shown _ :: _ => true
  | _ => false

/-- The newest event of the receive duty is a displayed line. -/
def after_shown (t : List ClientEvent) : Bool :=
  match t.filter is_recv_event with
  | ClientEvent.shown _ :: _ => true
  | _ => false

/-- Every `ready_set` of a trace comes right after a pending-data check that
returned false following a displayed line, with no empty read and no sentinel
before it. -/
def signals_ok : List ClientEvent → Bool
  | [] => true
  | ClientEvent.ready_set :: older =>
    after_peek_false older && !older.any is_end && signals_ok older
  | _ :: older => signals_ok older

/-- The ready signal is there for the send duty to use: `ready_to_send` is true
and the duty has not sent on it yet. -/
def credit (c : Client) : Nat :=
  if c.ready_to_send = true ∧ c.spc ≠ SendPc.clear ∧ c.spc ≠ SendPc.done then 1 else 0

/-- What is true of the client after every sequence of moves. -/
structure ClientInv (c : Client) : Prop where
  mutex : holds_mutex c.spc = true → c.ready_to_send = true ∧ c.running = true
  signals : signals_ok c.trace = true
  shown : c.rpc = RecvPc.inner_head ∨ c.rpc = RecvPc.peek → after_shown c.trace = true
  check : c.rpc = RecvPc.ready_check → after_peek_false c.trace = true ∨ c.running = false
  set : c.rpc = RecvPc.set_ready → after_peek_false c.trace = true
  ended : c.trace.any is_end = true → c.rpc = RecvPc.done
  once : c.trace.countP is_sent + credit c ≤ c.trace.count ClientEvent.ready_set
  cleared : c.trace.countP is_sent_ok
      = c.trace.count ClientEvent.cleared + (if c.spc = SendPc.clear then 1 else 0)

/-- A schedule in which a ready signal is still unused when the next burst
arrives: "A" is displayed alone and the signal is raised; then "X" arrives and
is displayed, the send duty wakes up on the old signal and waits for the
operator, "Y" is seen as pending and read, the operator's line is sent, and
only then "Y" is displayed. -/
def stale_signal_moves : List Move :=
  [Move.recv_duty [] false, Move.recv_duty "A".toList false, Move.recv_duty [] false,
   Move.recv_duty [] false, Move.recv_duty [] false, Move.recv_duty [] false,
   Move.recv_duty [] false,
   Move.recv_duty [] false, Move.recv_duty "X".toList false, Move.recv_duty [] false,
   Move.send_duty none true, Move.send_duty none true,
   Move.recv_duty [] false, Move.recv_duty [] true, Move.recv_duty "Y".toList false,
   Move.recv_duty [] false,
   Move.send_duty (some "hi".toList) true, Move.send_duty none true,
   Move.send_duty none true,
   Move.recv_duty [] false]

/-! ## The cooperative client on the wire -/

/-- The bytes that a fully cooperative client puts on the wire for the jokes of
a plan: per joke the lines "Who's there?", `setup + " who?"` and "Y", each
ended by a newline. -/
def coop_bytes (jokes : List (Str × Str)) (plan : List Nat) : List Char :=
  plan.flatMap fun j =>
    match jokes[j]? with
    | some (setup, _) =>
      "Who's there?".toList ++ '\n' :: (setup ++ " who?".toList ++ '\n' :: "Y\n".toList)
    | none => []

/-- The lines that a cooperative session is to show for the jokes of a plan:
per joke "Knock knock!", the setup with terminal punctuation, the punchline and
the continue prompt. -/
def transcript (jokes : List (Str × Str)) (plan : List Nat) : List Str :=
  plan.flatMap fun j =>
    match jokes[j]? with
    | some (setup, punch) =>
      ["Knock knock!".toList,
       if setup.getLast? = some '.' ∨ setup.getLast? = some '!' then setup else setup ++ ['.'],
       punch, "Would you like to listen to another? (Y/N)".toList]
    | none => []

/-! ## Basic facts about the connection -/

@[simp] theorem send_line_fst (s : Sock) (line : Str) :
    (s.send_line line).1 = s.sendOk.headD true := rfl

@[simp] theorem send_line_inbox (s : Sock) (line : Str) :
    (s.send_line line).2.inbox = s.inbox := rfl

@[simp] theorem send_line_sendOk (s : Sock) (line : Str) :
    (s.send_line line).2.sendOk = s.sendOk.tail := rfl

@[simp] theorem send_line_log (s : Sock) (line : Str) :
    (s.send_line line).2.log = s.log ++ [Event.send line (s.sendOk.headD true)] := rfl

@[simp] theorem recv_line_fst (s : Sock) : s.recv_line.1 = s.inbox.headD [] := rfl

@[simp] theorem recv_line_inbox (s : Sock) : s.recv_line.2.inbox = s.inbox.tail := rfl

@[simp] theorem recv_line_sendOk (s : Sock) : s.recv_line.2.sendOk = s.sendOk := rfl

@[simp] theorem recv_line_log (s : Sock) :
    s.recv_line.2.log = s.log ++ [Event.recv (s.inbox.headD [])] := rfl

theorem send_line_mk (i : List Str) (o : List Bool) (l : List Event) (line : Str) :
    (Sock.mk i o l).send_line line
      = (o.headD true, Sock.mk i o.tail (l ++ [Event.send line (o.headD true)])) := rfl

theorem recv_line_mk (i : List Str) (o : List Bool) (l : List Event) :
    (Sock.mk i o l).recv_line
      = (i.headD [], Sock.mk i.tail o (l ++ [Event.recv (i.headD [])])) := rfl

@[simp] theorem sent_lines_nil : sent_lines [] = [] := rfl

@[simp] theorem sent_lines_append (a b : List Event) :
    sent_lines (a ++ b) = sent_lines a ++ sent_lines b := by
  induction a with
  | nil => rfl
  | cons e es ih => cases e <;> simp [sent_lines, ih]

theorem tail_length_lt_of_headD_ne {l : List Str} (h : l.headD [] ≠ []) :
    l.tail.length < l.length := by
  cases l with
  | nil => simp at h
  | cons a t => simp

/-! ## The iteration bounds are never reached -/

theorem who_loop_fuel (expected : Str) :
    ∀ (f1 f2 : Nat) (resp : Str) (s : Sock), s.inbox.length < f1 → s.inbox.length < f2 →
      who_loop expected f1 resp s = who_loop expected f2 resp s := by
  intro f1
  induction f1 with
  | zero => intro f2 resp s h; omega
  | succ n ih =>
    intro f2 resp s h1 h2
    cases f2 with
    | zero => omega
    | succ m =>
      simp only [who_loop]
      split
      · split
        · rfl
        · rename_i hne
          have hne2 : s.inbox.headD [] ≠ [] := by
            simpa [List.isEmpty_iff] using hne
          have hlt := tail_length_lt_of_headD_ne hne2
          apply ih
          · simp only [recv_line_inbox, send_line_inbox]; omega
          · simp only [recv_line_inbox, send_line_inbox]; omega
      · rfl

/-- One step of the inner loop, with the iteration bound out of the way. -/
theorem who_loop_unfold (expected : Str) (f : Nat) (resp : Str) (s : Sock)
    (hf : s.inbox.length < f) :
    who_loop expected f resp s =
      if !iequals resp expected then
        if (s.inbox.headD []).isEmpty then
          some (((s.send_line (remind expected)).2.send_line knock).2.recv_line)
        else
          who_loop expected (s.inbox.tail.length + 1) (s.inbox.headD [])
            ((s.send_line (remind expected)).2.send_line knock).2.recv_line.2
      else some (resp, s) := by
  cases f with
  | zero => omega
  | succ n =>
    conv_lhs => rw [who_loop]
    split
    · simp only [recv_line_fst, send_line_inbox]
      split
      · rfl
      · rename_i hne
        have hne2 : s.inbox.headD [] ≠ [] := by
          simpa [List.isEmpty_iff] using hne
        have hlt := tail_length_lt_of_headD_ne hne2
        apply who_loop_fuel
        · simp only [recv_line_inbox, send_line_inbox]; omega
        · simp only [recv_line_inbox, send_line_inbox]; omega
    · rfl

/-- The inner loop always returns, and it never puts lines back. -/
theorem who_loop_some (expected : Str) :
    ∀ (f : Nat) (resp : Str) (s : Sock), s.inbox.length < f →
      ∃ w, who_loop expected f resp s = some w ∧ w.2.inbox.length ≤ s.inbox.length := by
  intro f
  induction f with
  | zero => intro resp s h; omega
  | succ n ih =>
    intro resp s h
    simp only [who_loop]
    split
    · split
      · exact ⟨_, rfl, by simp⟩
      · rename_i hne
        have hne2 : s.inbox.headD [] ≠ [] := by
          simpa [List.isEmpty_iff] using hne
        have hlt := tail_length_lt_of_headD_ne hne2
        obtain ⟨w, hw, hle⟩ := ih (s.inbox.headD [])
          ((s.send_line (remind expected)).2.send_line knock).2.recv_line.2
          (by simp only [recv_line_inbox, send_line_inbox]; omega)
        refine ⟨w, ?_, ?_⟩
        · simpa using hw
        · simp only [recv_line_inbox, send_line_inbox] at hle; omega
    · exact ⟨_, rfl, le_refl _⟩

theorem ask_another_cont_inbox (pos : Nat) (s : Sock)
    (h : (ask_another pos s).1 = Flow.cont) :
    (ask_another pos s).2.2.inbox.length < s.inbox.length := by
  unfold ask_another at h ⊢
  simp only [recv_line_fst] at h ⊢
  split at h
  · simp at h
  · rename_i hne
    have hne2 : s.inbox.headD [] ≠ [] := by simpa [List.isEmpty_iff] using hne
    have hlt := tail_length_lt_of_headD_ne hne2
    rw [if_neg hne]
    split <;> simpa using hlt

/-- A pass through the loop body that continues has read a line of the peer. -/
theorem joke_round_cont_inbox (jokes : List (Str × Str)) (idx : List Nat) (pos : Nat) (s : Sock)
    (h : (joke_round jokes idx pos s).1 = Flow.cont) :
    (joke_round jokes idx pos s).2.2.inbox.length < s.inbox.length := by
  unfold joke_round at h ⊢
  split
  · rename_i h1; rw [if_pos h1] at h; simp at h
  · rename_i h1
    rw [if_neg h1] at h
    split
    · rename_i h2; simp [h2] at h
    · rename_i jidx h2
      simp only [h2] at h
      split
      · rename_i h3; simp [h3] at h
      · rename_i setup punch h3
        simp only [h3] at h
        simp only [send_line_fst, recv_line_fst, send_line_inbox, recv_line_inbox] at h ⊢
        split
        · rename_i h4; rw [if_pos h4] at h; simp at h
        · rename_i h4
          rw [if_neg h4] at h
          split
          · rename_i h5; rw [if_pos h5] at h; simp at h
          · rename_i h5
            have hne : s.inbox.headD [] ≠ [] := by simpa [List.isEmpty_iff] using h5
            have hlt := tail_length_lt_of_headD_ne hne
            rw [if_neg h5] at h
            split
            · simpa using hlt
            · rename_i h6
              rw [if_neg h6] at h
              split
              · rename_i h7; rw [if_pos h7] at h; simp at h
              · rename_i h7
                rw [if_neg h7] at h
                split
                · rename_i h8; rw [if_pos h8] at h; simp at h
                · rename_i h8
                  rw [if_neg h8] at h
                  obtain ⟨w, hw, hle⟩ := who_loop_some (setup ++ who)
                    (s.inbox.tail.tail.length + 1) (s.inbox.tail.headD [])
                    ((s.send_line knock).2.recv_line.2.send_line (setup_msg setup)).2.recv_line.2
                    (by simp)
                  simp only [hw] at h ⊢
                  have := ask_another_cont_inbox pos
                    ((w.2.send_line punch).2.send_line another).2 h
                  simp only [send_line_inbox, recv_line_inbox] at this hle
                  have h9 : s.inbox.tail.tail.length ≤ s.inbox.tail.length := by
                    simp
                  omega

theorem joke_loop_fuel (jokes : List (Str × Str)) (idx : List Nat) :
    ∀ (f1 f2 pos : Nat) (s : Sock), s.inbox.length < f1 → s.inbox.length < f2 →
      joke_loop jokes idx f1 pos s = joke_loop jokes idx f2 pos s := by
  intro f1
  induction f1 with
  | zero => intro f2 pos s h; omega
  | succ n ih =>
    intro f2 pos s h1 h2
    cases f2 with
    | zero => omega
    | succ m =>
      simp only [joke_loop]
      have hc := joke_round_cont_inbox jokes idx pos s
      rcases hr : joke_round jokes idx pos s with ⟨fl, p, s2⟩
      rw [hr] at hc
      cases fl with
      | brk why => rfl
      | cont =>
        have := hc rfl
        simp only
        apply ih <;> simp only at this <;> omega

/-- The dialogue loop is one pass through its body, then the loop again unless
the pass left it. -/
theorem run_unfold (jokes : List (Str × Str)) (idx : List Nat) (pos : Nat) (s : Sock) :
    run jokes idx pos s = after_round jokes idx (joke_round jokes idx pos s) := by
  unfold run
  simp only [joke_loop]
  have hc := joke_round_cont_inbox jokes idx pos s
  rcases hr : joke_round jokes idx pos s with ⟨fl, p, s2⟩
  rw [hr] at hc
  cases fl with
  | brk why => rfl
  | cont =>
    have := hc rfl
    simp only [after_round, run]
    apply joke_loop_fuel <;> simp only at this <;> omega

theorem ask_another_flow (pos : Nat) (s : Sock) :
    (ask_another pos s).1 ≠ Flow.brk Exit.out_of_fuel := by
  simp only [ask_another]
  split
  · simp
  · split <;> simp

/-- A pass through the loop body never reaches the iteration bound of the
inner loop. -/
theorem joke_round_flow (jokes : List (Str × Str)) (idx : List Nat) (pos : Nat) (s : Sock) :
    (joke_round jokes idx pos s).1 ≠ Flow.brk Exit.out_of_fuel := by
  unfold joke_round
  split
  · simp
  · split
    · simp
    · split
      · simp
      · simp only
        split
        · simp
        · split
          · simp
          · split
            · simp
            · split
              · simp
              · split
                · simp
                · split
                  · rename_i hw
                    obtain ⟨w, hw2, _⟩ := who_loop_some _ _ _ _ (Nat.lt_succ_self _)
                    rw [hw2] at hw
                    exact absurd hw (by simp)
                  · exact ask_another_flow _ _

/-- The dialogue loop never reaches its iteration bound. -/
theorem joke_loop_exit (jokes : List (Str × Str)) (idx : List Nat) :
    ∀ (fuel pos : Nat) (s : Sock), s.inbox.length < fuel →
      (joke_loop jokes idx fuel pos s).exit ≠ Exit.out_of_fuel := by
  intro fuel
  induction fuel with
  | zero => intro pos s h; omega
  | succ n ih =>
    intro pos s h
    simp only [joke_loop]
    have hc := joke_round_cont_inbox jokes idx pos s
    have hf := joke_round_flow jokes idx pos s
    rcases hr : joke_round jokes idx pos s with ⟨fl, p, s2⟩
    rw [hr] at hc hf
    cases fl with
    | brk why =>
      simp only
      intro h2
      exact hf (by simp [h2])
    | cont =>
      have := hc rfl
      simp only at this ⊢
      exact ih p s2 (by omega)

/-! ## Evaluating one pass through the loop body -/

theorem iequals_refl (a : Str) : iequals a a = true := by
  simp [iequals]

theorem lt_length_of_getElem? {α : Type} {l : List α} {i : Nat} {a : α}
    (h : l[i]? = some a) : i < l.length := by
  obtain ⟨h', _⟩ := List.getElem?_eq_some.mp h
  exact h'

theorem joke_round_exhausted (jokes : List (Str × Str)) (idx : List Nat) (pos : Nat) (s : Sock)
    (h : idx.length ≤ pos) :
    joke_round jokes idx pos s = (Flow.brk Exit.exhausted, pos, (s.send_line no_more).2) := by
  simp [joke_round, h]

/-- A pass in which the reply to "Knock knock!" is wrong. -/
theorem joke_round_wrong (jokes : List (Str × Str)) (idx : List Nat) (pos j : Nat)
    (setup punch : Str) (hj : idx[pos]? = some j) (hjk : jokes[j]? = some (setup, punch))
    (w : Str) (rest : List Str) (o : List Bool) (log : List Event)
    (hk : o.headD true = true) (hw : w ≠ []) (hne : iequals w whos_there = false) :
    joke_round jokes idx pos ⟨w :: rest, o, log⟩
      = (Flow.cont, pos, ⟨rest, o.tail.tail,
          log ++ [Event.send knock true, Event.recv w,
                  Event.send say_whos_there (o.tail.headD true)]⟩) := by
  have hlt := lt_length_of_getElem? hj
  simp at hk
  simp [joke_round, hj, hjk, Nat.not_le.mpr hlt, send_line_mk, recv_line_mk, hk, hw, hne,
    List.isEmpty_iff]

/-- A pass in which the reply to "Knock knock!" is right and the reply to the
setup line is not empty: the pass reaches the inner loop. -/
theorem joke_round_reach_who (jokes : List (Str × Str)) (idx : List Nat) (pos j : Nat)
    (setup punch : Str) (hj : idx[pos]? = some j) (hjk : jokes[j]? = some (setup, punch))
    (r1 r2 : Str) (rest : List Str) (o : List Bool) (log : List Event)
    (hk : o.headD true = true) (hs : o.tail.headD true = true)
    (h1 : iequals r1 whos_there = true) (h2 : r2 ≠ []) :
    joke_round jokes idx pos ⟨r1 :: r2 :: rest, o, log⟩
      = match who_loop (setup ++ who) (rest.length + 1) r2
            ⟨rest, o.tail.tail,
              log ++ [Event.send knock true, Event.recv r1,
                      Event.send (setup_msg setup) true, Event.recv r2]⟩ with
        | none => (Flow.brk Exit.out_of_fuel, pos,
            ⟨rest, o.tail.tail,
              log ++ [Event.send knock true, Event.recv r1,
                      Event.send (setup_msg setup) true, Event.recv r2]⟩)
        | some w => ask_another pos ((w.2.send_line punch).2.send_line another).2 := by
  have hlt := lt_length_of_getElem? hj
  have hr1 : r1 ≠ [] := by
    intro h
    rw [h] at h1
    revert h1
    decide
  simp at hk hs
  simp [joke_round, hj, hjk, Nat.not_le.mpr hlt, send_line_mk, recv_line_mk, hk, hs, h1, h2, hr1,
    List.isEmpty_iff]

/-- The inner loop on replies that do not match, followed by one that does. -/
theorem who_loop_corrections (expected : Str) (m : Str) (hm : iequals m expected = true)
    (hm0 : m ≠ []) (rest : List Str) (so : List Bool) :
    ∀ (wb : List (Str × Bool × Bool)) (resp : Str) (inbox : List Str) (log : List Event)
      (f : Nat),
      (∀ p ∈ wb, p.1 ≠ [] ∧ iequals p.1 expected = false) →
      resp :: inbox = wb.map (fun p => p.1) ++ m :: rest →
      inbox.length < f →
      who_loop expected f resp
          ⟨inbox, wb.flatMap (fun p => [p.2.1, p.2.2]) ++ so, log ++ [Event.recv resp]⟩
        = some (m, ⟨rest, so,
            log ++ wb.flatMap (fun p => [Event.recv p.1, Event.send (remind expected) p.2.1,
                                         Event.send knock p.2.2])
              ++ [Event.recv m]⟩) := by
  intro wb
  induction wb with
  | nil =>
    intro resp inbox log f _ heq hf
    simp only [List.map_nil, List.nil_append, List.cons.injEq] at heq
    obtain ⟨rfl, rfl⟩ := heq
    rw [who_loop_unfold _ _ _ _ hf]
    simp [hm]
  | cons p wb ih =>
    intro resp inbox log f hwb heq hf
    simp only [List.map_cons, List.cons_append, List.cons.injEq] at heq
    obtain ⟨rfl, rfl⟩ := heq
    obtain ⟨hp0, hpne⟩ := hwb p (List.mem_cons_self _ _)
    have hwb2 : ∀ q ∈ wb, q.1 ≠ [] ∧ iequals q.1 expected = false :=
      fun q hq => hwb q (List.mem_cons_of_mem _ hq)
    rw [who_loop_unfold _ _ _ _ hf]
    -- the next reply is the head of the remaining list
    obtain ⟨r, inbox2, hri⟩ : ∃ r inbox2, r :: inbox2 = wb.map (fun p => p.1) ++ m :: rest := by
      cases wb with
      | nil => exact ⟨m, rest, rfl⟩
      | cons q wb => exact ⟨q.1, wb.map (fun p => p.1) ++ m :: rest, rfl⟩
    have hr0 : r ≠ [] := by
      cases wb with
      | nil =>
        simp only [List.map_nil, List.nil_append, List.cons.injEq] at hri
        rw [hri.1]; exact hm0
      | cons q wb =>
        simp only [List.map_cons, List.cons_append, List.cons.injEq] at hri
        rw [hri.1]; exact (hwb2 q (List.mem_cons_self _ _)).1
    rw [← hri]
    have := ih r inbox2 (log ++ [Event.recv p.1, Event.send (remind expected) p.2.1,
      Event.send knock p.2.2]) (inbox2.length + 1) hwb2 hri (Nat.lt_succ_self _)
    simp [hpne, hr0, List.isEmpty_iff, send_line_mk, recv_line_mk]
    simpa using this

/-! ## The cooperative client -/

theorem sent_lines_coop_events (jokes : List (Str × Str)) (plan : List Nat) :
    sent_lines (coop_events jokes plan) = told jokes plan := by
  induction plan with
  | nil => rfl
  | cons j plan ih =>
    simp only [coop_events, told, List.flatMap_cons, sent_lines_append] at ih ⊢
    rw [ih]
    cases jokes[j]? with
    | none => rfl
    | some p => rfl

theorem run_coop (jokes : List (Str × Str)) (idx : List Nat)
    (hidx : ∀ j ∈ idx, j < jokes.length) :
    ∀ (n pos : Nat) (log : List Event), pos + n = idx.length →
      run jokes idx pos ⟨coop_replies jokes (idx.drop pos), [], log⟩
        = ⟨⟨[], [], log ++ coop_events jokes (idx.drop pos) ++ [Event.send no_more true]⟩,
            idx.length, Exit.exhausted⟩ := by
  intro n
  induction n with
  | zero =>
    intro pos log h
    have hpos : pos = idx.length := by omega
    subst hpos
    rw [run_unfold, joke_round_exhausted _ _ _ _ (le_refl _)]
    simp [after_round, coop_replies, coop_events, send_line_mk]
  | succ n ih =>
    intro pos log h
    have hlt : pos < idx.length := by omega
    have hj : idx[pos]? = some idx[pos] := List.getElem?_eq_getElem hlt
    have hjlt : idx[pos] < jokes.length := hidx _ (List.getElem_mem hlt)
    have hjk : jokes[idx[pos]]? = some (jokes[idx[pos]].1, jokes[idx[pos]].2) :=
      List.getElem?_eq_getElem hjlt
    have hdrop := List.drop_eq_getElem_cons hlt
    have hrep : coop_replies jokes (idx.drop pos)
        = whos_there :: (jokes[idx[pos]].1 ++ who) :: yes
            :: coop_replies jokes (idx.drop (pos + 1)) := by
      rw [hdrop]; simp only [coop_replies, List.flatMap_cons, hjk]; rfl
    have hev : coop_events jokes (idx.drop pos)
        = [Event.send knock true, Event.recv whos_there,
            Event.send (setup_msg jokes[idx[pos]].1) true,
            Event.recv (jokes[idx[pos]].1 ++ who), Event.send jokes[idx[pos]].2 true,
            Event.send another true, Event.recv yes]
          ++ coop_events jokes (idx.drop (pos + 1)) := by
      rw [hdrop]; simp only [coop_events, List.flatMap_cons, hjk]
    have hwho : (jokes[idx[pos]].1 ++ who) ≠ [] := by simp [who]
    have hyes : iequals yes yes = true := iequals_refl _
    have hyes0 : yes ≠ [] := by decide
    rw [run_unfold, hrep,
      joke_round_reach_who jokes idx pos idx[pos] _ _ hj hjk whos_there _ _ [] log rfl rfl
        (iequals_refl _) hwho,
      who_loop_unfold _ _ _ _ (by simp)]
    simp only [iequals_refl, Bool.not_true, Bool.false_eq_true, ↓reduceIte]
    simp only [ask_another, send_line_mk, recv_line_mk, List.headD_cons, List.tail_cons,
      List.isEmpty_iff, hyes0, hyes, ↓reduceIte, after_round, List.headD_nil, List.tail_nil]
    rw [ih (pos + 1) _ (by omega), hev]
    simp

/-- When the three replies per joke of a cooperative client are what the reads
return and all sends succeed, the lines sent by `client_thread` are, for each
joke in plan order, "Knock knock!", the setup line, the punchline and the
continue prompt, followed by one final "I have no more jokes to tell."; the
session ends by exhausting the plan, with the cursor at the end of the plan,
and every joke of the store occurs once in the plan. -/
theorem coop_replies_session (jokes : List (Str × Str)) (idx : List Nat)
    (hne : jokes ≠ []) (hperm : idx.Perm (List.range jokes.length)) :
    sent_lines (client_thread jokes idx ⟨coop_replies jokes idx, [], []⟩).sock.log
        = told jokes idx ++ [no_more]
      ∧ (client_thread jokes idx ⟨coop_replies jokes idx, [], []⟩).sock.log
        = coop_events jokes idx ++ [Event.send no_more true, Event.close]
      ∧ (client_thread jokes idx ⟨coop_replies jokes idx, [], []⟩).exit = Exit.exhausted
      ∧ (client_thread jokes idx ⟨coop_replies jokes idx, [], []⟩).pos = idx.length
      ∧ idx ≠ []
      ∧ ∀ j, j < jokes.length → idx.count j = 1 := by
  have hidx : ∀ j ∈ idx, j < jokes.length := by
    intro j hj
    exact List.mem_range.mp ((hperm.mem_iff).mp hj)
  have hrun := run_coop jokes idx hidx idx.length 0 [] (by simp)
  simp only [List.drop_zero, List.nil_append] at hrun
  have hct : client_thread jokes idx ⟨coop_replies jokes idx, [], []⟩
      = ⟨⟨[], [], coop_events jokes idx ++ [Event.send no_more true] ++ [Event.close]⟩,
          idx.length, Exit.exhausted⟩ := by
    simp only [client_thread, hrun]
  rw [hct]
  refine ⟨?_, by simp, rfl, rfl, ?_, ?_⟩
  · simp [sent_lines_coop_events, sent_lines]
  · intro h
    rw [h] at hperm
    have := hperm.length_eq
    simp at this
    exact hne (List.length_eq_zero.mp this.symm)
  · intro j hj
    rw [hperm.count_eq]
    exact List.count_eq_one_of_mem (List.nodup_range _) (List.mem_range.mpr hj)

/-! ## The two correction loops -/

theorem iequals_length {a b : Str} (h : iequals a b = true) : a.length = b.length := by
  unfold iequals at h
  by_contra hne
  simp [hne] at h

/-- The log of the inner loop only grows. -/
theorem who_loop_log (expected : Str) :
    ∀ (f : Nat) (resp : Str) (s : Sock) (w : Str × Sock),
      who_loop expected f resp s = some w → ∃ ev, w.2.log = s.log ++ ev := by
  intro f
  induction f with
  | zero => intro resp s w h; simp [who_loop] at h
  | succ n ih =>
    intro resp s w h
    simp only [who_loop] at h
    split at h
    · split at h
      · simp only [Option.some.injEq] at h
        subst h
        exact ⟨_, by simp only [recv_line_log, send_line_log, List.append_assoc]; rfl⟩
      · obtain ⟨ev, hev⟩ := ih _ _ _ h
        rw [hev]
        simp only [recv_line_log, send_line_log, List.append_assoc]
        exact ⟨_, rfl⟩
    · simp only [Option.some.injEq] at h
      subst h
      exact ⟨[], by simp⟩

theorem ask_another_log (pos : Nat) (s : Sock) :
    (ask_another pos s).2.2.log = s.log ++ [Event.recv (s.inbox.headD [])] := by
  simp only [ask_another]
  split
  · rfl
  · split <;> rfl

/-- A pass through the loop body for a joke of the plan begins by sending
"Knock knock!". -/
theorem joke_round_starts_with_knock (jokes : List (Str × Str)) (idx : List Nat) (pos j : Nat)
    (setup punch : Str) (hj : idx[pos]? = some j) (hjk : jokes[j]? = some (setup, punch))
    (s : Sock) :
    ∃ tail, (joke_round jokes idx pos s).2.2.log
      = s.log ++ Event.send knock (s.sendOk.headD true) :: tail := by
  have hlt := lt_length_of_getElem? hj
  unfold joke_round
  rw [if_neg (Nat.not_le.mpr hlt)]
  simp only [hj, hjk]
  split
  · exact ⟨[], rfl⟩
  · split
    · exact ⟨_, by simp only [recv_line_log, send_line_log, List.append_assoc]; rfl⟩
    · split
      · exact ⟨_, by simp only [recv_line_log, send_line_log, List.append_assoc]; rfl⟩
      · split
        · exact ⟨_, by simp only [recv_line_log, send_line_log, List.append_assoc]; rfl⟩
        · split
          · exact ⟨_, by simp only [recv_line_log, send_line_log, List.append_assoc]; rfl⟩
          · split
            · exact ⟨_, by simp only [recv_line_log, send_line_log, List.append_assoc]; rfl⟩
            · rename_i w hw
              obtain ⟨ev, hev⟩ := who_loop_log _ _ _ _ _ hw
              rw [ask_another_log]
              simp only [send_line_log, hev, recv_line_log, List.append_assoc, List.cons_append,
                List.nil_append]
              exact ⟨_, rfl⟩

/-- Wrong replies to "Knock knock!": each pass sends "Knock knock!", reads the
reply, sends the correction of line 113 and goes back to the top of the loop
with the same cursor. -/
theorem run_wrong_replies (jokes : List (Str × Str)) (idx : List Nat) (pos j : Nat)
    (setup punch : Str) (hj : idx[pos]? = some j) (hjk : jokes[j]? = some (setup, punch))
    (wb : List (Str × Bool)) (rest : List Str) (so : List Bool) (log : List Event)
    (hwb : ∀ p ∈ wb, p.1 ≠ [] ∧ iequals p.1 whos_there = false) :
    run jokes idx pos
        ⟨wb.map (fun p => p.1) ++ rest, wb.flatMap (fun p => [true, p.2]) ++ so, log⟩
      = run jokes idx pos
          ⟨rest, so,
            log ++ wb.flatMap (fun p =>
              [Event.send knock true, Event.recv p.1, Event.send say_whos_there p.2])⟩
    ∧ ∃ tail,
        (joke_round jokes idx pos
          ⟨rest, so,
            log ++ wb.flatMap (fun p =>
              [Event.send knock true, Event.recv p.1, Event.send say_whos_there p.2])⟩).2.2.log
        = (log ++ wb.flatMap (fun p =>
              [Event.send knock true, Event.recv p.1, Event.send say_whos_there p.2]))
            ++ Event.send knock (so.headD true) :: tail := by
  refine ⟨?_, joke_round_starts_with_knock jokes idx pos j setup punch hj hjk _⟩
  induction wb generalizing log with
  | nil => simp
  | cons p wb ih =>
    have hp := hwb p (List.mem_cons_self _ _)
    have hwb2 : ∀ q ∈ wb, q.1 ≠ [] ∧ iequals q.1 whos_there = false :=
      fun q hq => hwb q (List.mem_cons_of_mem _ hq)
    simp only [List.map_cons, List.cons_append, List.flatMap_cons]
    rw [run_unfold,
      joke_round_wrong jokes idx pos j setup punch hj hjk p.1 _ _ log (by rfl) hp.1 hp.2]
    simp only [after_round, List.tail_cons, List.headD_cons, List.nil_append]
    rw [ih _ hwb2]
    simp

/-- C2: when the peer answers "Knock knock!" with non-empty replies that are not
"Who's there?" up to case, each such reply is followed by exactly the line
`You are supposed to say, "Who's there?". Let's try again.`, and the loop is
back at its top with the same cursor, where the next pass sends "Knock knock!"
again for the same joke; neither the setup line nor the punchline is sent.  The
list `wb` holds the wrong replies, each with the outcome of the send of its
correction line; the session on these replies followed by `rest` is the session
on `rest` with the events of the corrections already in the log. -/
theorem whos_there_corrections (jokes : List (Str × Str)) (idx : List Nat) (pos j : Nat)
    (setup punch : Str) (hj : idx[pos]? = some j) (hjk : jokes[j]? = some (setup, punch))
    (wb : List (Str × Bool)) (rest : List Str) (so : List Bool) (log : List Event)
    (hwb : ∀ p ∈ wb, p.1 ≠ [] ∧ iequals p.1 "Who's there?".toList = false) :
    run jokes idx pos
        ⟨wb.map (fun p => p.1) ++ rest, wb.flatMap (fun p => [true, p.2]) ++ so, log⟩
      = run jokes idx pos
          ⟨rest, so,
            log ++ wb.flatMap (fun p =>
              [Event.send "Knock knock!".toList true, Event.recv p.1,
               Event.send "You are supposed to say, \"Who's there?\". Let's try again.".toList
                 p.2])⟩
    ∧ ∃ tail,
        (joke_round jokes idx pos
          ⟨rest, so,
            log ++ wb.flatMap (fun p =>
              [Event.send "Knock knock!".toList true, Event.recv p.1,
               Event.send "You are supposed to say, \"Who's there?\". Let's try again.".toList
                 p.2])⟩).2.2.log
        = (log ++ wb.flatMap (fun p =>
              [Event.send "Knock knock!".toList true, Event.recv p.1,
               Event.send "You are supposed to say, \"Who's there?\". Let's try again.".toList
                 p.2]))
            ++ Event.send "Knock knock!".toList (so.headD true) :: tail :=
  run_wrong_replies jokes idx pos j setup punch hj hjk wb rest so log hwb

/-- A pass through the loop body with wrong replies to the setup line, then a
matching one: the pass reaches the continue prompt. -/
theorem joke_round_corrections (jokes : List (Str × Str)) (idx : List Nat) (pos j : Nat)
    (setup punch : Str) (hj : idx[pos]? = some j) (hjk : jokes[j]? = some (setup, punch))
    (r1 : Str) (h1 : iequals r1 whos_there = true)
    (wb : List (Str × Bool × Bool)) (m : Str) (rest : List Str) (b1 b2 : Bool)
    (so : List Bool) (log : List Event)
    (hwb : ∀ p ∈ wb, p.1 ≠ [] ∧ iequals p.1 (setup ++ who) = false)
    (hm : iequals m (setup ++ who) = true) :
    joke_round jokes idx pos
        ⟨r1 :: (wb.map (fun p => p.1) ++ m :: rest),
          true :: true :: (wb.flatMap (fun p => [p.2.1, p.2.2]) ++ b1 :: b2 :: so), log⟩
      = ask_another pos
          ⟨rest, so,
            log ++ [Event.send knock true, Event.recv r1, Event.send (setup_msg setup) true]
              ++ wb.flatMap (fun p =>
                  [Event.recv p.1, Event.send (remind (setup ++ who)) p.2.1,
                   Event.send knock p.2.2])
              ++ [Event.recv m, Event.send punch b1, Event.send another b2]⟩ := by
  have hm0 : m ≠ [] := by
    intro h
    have := iequals_length hm
    rw [h] at this
    simp [who] at this
  obtain ⟨r2, inbox, hri⟩ : ∃ r2 inbox, r2 :: inbox = wb.map (fun p => p.1) ++ m :: rest := by
    cases wb with
    | nil => exact ⟨m, rest, rfl⟩
    | cons q wb => exact ⟨q.1, wb.map (fun p => p.1) ++ m :: rest, rfl⟩
  have hr2 : r2 ≠ [] := by
    cases wb with
    | nil =>
      simp only [List.map_nil, List.nil_append, List.cons.injEq] at hri
      rw [hri.1]; exact hm0
    | cons q wb =>
      simp only [List.map_cons, List.cons_append, List.cons.injEq] at hri
      rw [hri.1]; exact (hwb q (List.mem_cons_self _ _)).1
  rw [← hri, joke_round_reach_who jokes idx pos j setup punch hj hjk r1 r2 inbox _ log (by rfl)
    (by rfl) h1 hr2]
  have hw := who_loop_corrections (setup ++ who) m hm hm0 rest (b1 :: b2 :: so) wb r2 inbox
    (log ++ [Event.send knock true, Event.recv r1, Event.send (setup_msg setup) true])
    (inbox.length + 1) hwb hri (Nat.lt_succ_self _)
  simp only [List.tail_cons, List.append_assoc, List.cons_append, List.nil_append] at hw ⊢
  rw [hw]
  simp [send_line_mk]

/-- C3: after the setup line, non-empty replies that are not `setup + " who?"`
up to case are each followed by exactly the line
`You are supposed to say, "` + setup + ` who?". Let's try again.` and
"Knock knock!"; the setup line is not sent again, and after the matching reply
the punchline and the continue prompt follow, with the cursor unchanged.  The
list `wb` holds the wrong replies, each with the outcomes of the two sends that
follow it. -/
theorem setup_who_corrections (jokes : List (Str × Str)) (idx : List Nat) (pos j : Nat)
    (setup punch : Str) (hj : idx[pos]? = some j) (hjk : jokes[j]? = some (setup, punch))
    (r1 : Str) (h1 : iequals r1 "Who's there?".toList = true)
    (wb : List (Str × Bool × Bool)) (m : Str) (rest : List Str) (b1 b2 : Bool)
    (so : List Bool) (log : List Event)
    (hwb : ∀ p ∈ wb, p.1 ≠ [] ∧ iequals p.1 (setup ++ " who?".toList) = false)
    (hm : iequals m (setup ++ " who?".toList) = true) :
    joke_round jokes idx pos
        ⟨r1 :: (wb.map (fun p => p.1) ++ m :: rest),
          true :: true :: (wb.flatMap (fun p => [p.2.1, p.2.2]) ++ b1 :: b2 :: so), log⟩
      = ask_another pos
          ⟨rest, so,
            log ++ [Event.send "Knock knock!".toList true, Event.recv r1,
                    Event.send (setup_msg setup) true]
              ++ wb.flatMap (fun p =>
                  [Event.recv p.1,
                   Event.send ("You are supposed to say, \"".toList
                     ++ (setup ++ " who?".toList) ++ "\". Let's try again.".toList) p.2.1,
                   Event.send "Knock knock!".toList p.2.2])
              ++ [Event.recv m, Event.send punch b1,
                  Event.send "Would you like to listen to another? (Y/N)".toList b2]⟩ :=
  joke_round_corrections jokes idx pos j setup punch hj hjk r1 h1 wb m rest b1 b2 so log hwb hm

/-- Instance of C2 on the one-joke store: one wrong reply, "Hello", is followed
by the correction line, and the loop is back at its top with the cursor at 0. -/
theorem whos_there_corrections_lettuce :
    run lettuce [0] 0 ⟨["Hello".toList, "Who's there?".toList], [true, true], []⟩
      = run lettuce [0] 0 ⟨["Who's there?".toList], [],
          [Event.send "Knock knock!".toList true, Event.recv "Hello".toList,
           Event.send "You are supposed to say, \"Who's there?\". Let's try again.".toList
             true]⟩ :=
  (whos_there_corrections lettuce [0] 0 0 "Lettuce".toList
    "Lettuce in, it's cold out here!".toList (by decide) (by decide)
    [("Hello".toList, true)] ["Who's there?".toList] [] [] (by decide)).1

/-- Instance of C3 on the one-joke store: one wrong reply to the setup line,
then a matching one in another casing. -/
theorem setup_who_corrections_lettuce :
    joke_round lettuce [0] 0
        ⟨["Who's there?".toList, "Lettuce".toList, "lettuce WHO?".toList, "N".toList],
          [true, true, true, true, true, true], []⟩
      = ask_another 0
          ⟨["N".toList], [],
            [Event.send "Knock knock!".toList true, Event.recv "Who's there?".toList,
             Event.send "Lettuce.".toList true, Event.recv "Lettuce".toList,
             Event.send "You are supposed to say, \"Lettuce who?\". Let's try again.".toList
               true,
             Event.send "Knock knock!".toList true, Event.recv "lettuce WHO?".toList,
             Event.send "Lettuce in, it's cold out here!".toList true,
             Event.send "Would you like to listen to another? (Y/N)".toList true]⟩ :=
  setup_who_corrections lettuce [0] 0 0 "Lettuce".toList
    "Lettuce in, it's cold out here!".toList (by decide) (by decide)
    "Who's there?".toList (by decide) [("Lettuce".toList, true, true)] "lettuce WHO?".toList
    ["N".toList] true true [] [] (by decide) (by decide)

/-! ## An empty read inside the inner loop -/

/-- C4, the code at a failing input: the peer answers "Who's there?", then
"Lettuce", then ends its stream.  The empty read of line 135 leaves only the
inner loop: the punchline and the continue prompt are still sent and one more
read is made before the connection is closed. -/
theorem inner_empty_read_goes_on :
    (client_thread lettuce [0] ⟨["Who's there?".toList, "Lettuce".toList], [], []⟩).sock.log
      = [Event.send knock true, Event.recv "Who's there?".toList,
         Event.send "Lettuce.".toList true, Event.recv "Lettuce".toList,
         Event.send (remind "Lettuce who?".toList) true, Event.send knock true,
         Event.recv [],
         Event.send "Lettuce in, it's cold out here!".toList true,
         Event.send another true, Event.recv [], Event.close] := by
  decide

/-! ## The answer to the continue prompt -/

theorem ask_another_empty (pos : Nat) (s : Sock) (h0 : s.inbox.headD [] = []) :
    ask_another pos s = (Flow.brk Exit.empty_read, pos, s.recv_line.2) := by
  simp only [ask_another, recv_line_fst, List.isEmpty_iff, h0, ↓reduceIte]

theorem ask_another_yes (pos : Nat) (s : Sock) (h0 : s.inbox.headD [] ≠ [])
    (hy : iequals (s.inbox.headD []) yes = true) :
    ask_another pos s = (Flow.cont, pos + 1, s.recv_line.2) := by
  simp only [ask_another, recv_line_fst, List.isEmpty_iff, h0, hy, ↓reduceIte]

theorem ask_another_no (pos : Nat) (s : Sock) (h0 : s.inbox.headD [] ≠ [])
    (hy : ¬ iequals (s.inbox.headD []) yes = true) :
    ask_another pos s = (Flow.brk Exit.declined, pos, s.recv_line.2) := by
  simp only [ask_another, recv_line_fst, List.isEmpty_iff, h0, hy, ↓reduceIte,
    Bool.false_eq_true]

/-- The cursor after a pass through the loop body is the cursor before it, or
one more when the pass ended with a reply to the continue prompt that is "Y" up
to case. -/
theorem joke_round_pos (jokes : List (Str × Str)) (idx : List Nat) (p : Nat) (t : Sock) :
    (joke_round jokes idx p t).2.1 = p
      ∨ ((joke_round jokes idx p t).2.1 = p + 1
          ∧ (joke_round jokes idx p t).1 = Flow.cont
          ∧ ∃ t1, joke_round jokes idx p t = ask_another p t1
              ∧ t1.inbox.headD [] ≠ [] ∧ iequals (t1.inbox.headD []) yes = true) := by
  unfold joke_round
  split
  · exact Or.inl rfl
  · split
    · exact Or.inl rfl
    · split
      · exact Or.inl rfl
      · simp only
        split
        · exact Or.inl rfl
        · split
          · exact Or.inl rfl
          · split
            · exact Or.inl rfl
            · split
              · exact Or.inl rfl
              · split
                · exact Or.inl rfl
                · split
                  · exact Or.inl rfl
                  · rename_i w hw
                    generalize ((w.2.send_line _).2.send_line another).2 = t1
                    by_cases h0 : t1.inbox.headD [] = []
                    · left
                      rw [ask_another_empty _ _ h0]
                    · by_cases hy : iequals (t1.inbox.headD []) yes = true
                      · right
                        refine ⟨?_, ?_, t1, rfl, h0, hy⟩
                        · rw [ask_another_yes _ _ h0 hy]
                        · rw [ask_another_yes _ _ h0 hy]
                      · left
                        rw [ask_another_no _ _ h0 hy]

/-- C5: for a pass of the loop that reaches the continue prompt (with the
connection `s1` at that point) and a non-empty reply `r`: when `r` is "Y" up to
case, the session goes on from the top of the loop with the cursor advanced by
one; for every other `r` the session ends there with the cursor unchanged and
nothing sent after the prompt.  The cursor changes nowhere else: every pass
leaves it unchanged unless it ends with such a "Y". -/
theorem continue_answer (jokes : List (Str × Str)) (idx : List Nat) (pos : Nat) (s s1 : Sock)
    (r : Str) (rest : List Str)
    (hreach : joke_round jokes idx pos s = ask_another pos s1)
    (hin : s1.inbox = r :: rest) (hr : r ≠ []) :
    (iequals r yes = true →
        run jokes idx pos s
          = run jokes idx (pos + 1) ⟨rest, s1.sendOk, s1.log ++ [Event.recv r]⟩)
      ∧ (iequals r yes = false →
        run jokes idx pos s
          = ⟨⟨rest, s1.sendOk, s1.log ++ [Event.recv r]⟩, pos, Exit.declined⟩)
      ∧ ∀ (p : Nat) (t : Sock),
          (joke_round jokes idx p t).2.1 = p
            ∨ ((joke_round jokes idx p t).2.1 = p + 1
                ∧ (joke_round jokes idx p t).1 = Flow.cont
                ∧ ∃ t1, joke_round jokes idx p t = ask_another p t1
                    ∧ t1.inbox.headD [] ≠ [] ∧ iequals (t1.inbox.headD []) yes = true) := by
  obtain ⟨i1, o1, l1⟩ := s1
  simp only at hin
  subst hin
  refine ⟨?_, ?_, joke_round_pos jokes idx⟩
  · intro hy
    rw [run_unfold, hreach, ask_another_yes _ _ (by simpa using hr) (by simpa using hy)]
    rfl
  · intro hy
    rw [run_unfold, hreach, ask_another_no _ _ (by simpa using hr) (by simpa using hy)]
    rfl

/-- Instance of C5 on the one-joke store: the reply "N" to the prompt ends the
session with the cursor at 0 and nothing sent after the prompt. -/
theorem continue_answer_lettuce :
    run lettuce [0] 0 ⟨["Who's there?".toList, "Lettuce who?".toList, "N".toList], [], []⟩
      = ⟨⟨[], [],
          [Event.send knock true, Event.recv "Who's there?".toList,
           Event.send "Lettuce.".toList true, Event.recv "Lettuce who?".toList,
           Event.send "Lettuce in, it's cold out here!".toList true,
           Event.send another true, Event.recv "N".toList]⟩, 0, Exit.declined⟩ :=
  (continue_answer lettuce [0] 0
    ⟨["Who's there?".toList, "Lettuce who?".toList, "N".toList], [], []⟩
    ⟨["N".toList], [],
      [Event.send knock true, Event.recv "Who's there?".toList,
       Event.send "Lettuce.".toList true, Event.recv "Lettuce who?".toList,
       Event.send "Lettuce in, it's cold out here!".toList true,
       Event.send another true]⟩
    "N".toList [] (by decide) rfl (by decide)).2.1 (by decide)

/-! ## The completion sentinel -/

theorem remind_ne_no_more (expected : Str) : remind expected ≠ no_more := by
  intro h
  have : (remind expected).head? = no_more.head? := by rw [h]
  revert this
  simp [remind, no_more]

/-- The inner loop sends only reminders and "Knock knock!". -/
theorem who_loop_sent (expected : Str) :
    ∀ (f : Nat) (resp : Str) (s : Sock) (w : Str × Sock),
      who_loop expected f resp s = some w →
        ∃ ev, w.2.log = s.log ++ ev ∧ ∀ l ∈ sent_lines ev, l = remind expected ∨ l = knock := by
  intro f
  induction f with
  | zero => intro resp s w h; simp [who_loop] at h
  | succ n ih =>
    intro resp s w h
    simp only [who_loop] at h
    split at h
    · split at h
      · simp only [Option.some.injEq] at h
        subst h
        refine ⟨[Event.send (remind expected) (s.sendOk.headD true),
          Event.send knock (s.sendOk.tail.headD true), Event.recv (s.inbox.headD [])], ?_, ?_⟩
        · simp only [recv_line_log, send_line_log, List.append_assoc]; rfl
        · intro l hl
          simp [sent_lines] at hl
          exact hl
      · obtain ⟨ev, hev, hsent⟩ := ih _ _ _ h
        refine ⟨[Event.send (remind expected) (s.sendOk.headD true),
          Event.send knock (s.sendOk.tail.headD true), Event.recv (s.inbox.headD [])] ++ ev,
          ?_, ?_⟩
        · rw [hev]
          simp only [recv_line_log, send_line_log, List.append_assoc]; rfl
        · intro l hl
          simp only [sent_lines_append, List.mem_append] at hl
          rcases hl with hl | hl
          · simp [sent_lines] at hl
            exact hl
          · exact hsent l hl
    · simp only [Option.some.injEq] at h
      subst h
      exact ⟨[], by simp, by simp⟩

/-- What one pass through the loop body sends: the sentinel alone when the
plan is exhausted, and otherwise no line equal to the sentinel, provided no
joke text is the sentinel. -/
theorem joke_round_sent (jokes : List (Str × Str)) (idx : List Nat)
    (hjokes : ∀ p ∈ jokes, setup_msg p.1 ≠ no_more ∧ p.2 ≠ no_more) (pos : Nat) (s : Sock) :
    ∃ ev, (joke_round jokes idx pos s).2.2.log = s.log ++ ev
      ∧ (((joke_round jokes idx pos s).1 = Flow.brk Exit.exhausted
            ∧ ∃ ok, ev = [Event.send no_more ok])
          ∨ ((joke_round jokes idx pos s).1 ≠ Flow.brk Exit.exhausted
            ∧ no_more ∉ sent_lines ev)) := by
  have hk : no_more ≠ knock := by decide
  have hs : no_more ≠ say_whos_there := by decide
  have ha : no_more ≠ another := by decide
  unfold joke_round
  split
  · exact ⟨_, rfl, Or.inl ⟨rfl, _, rfl⟩⟩
  · split
    · exact ⟨[], by simp, Or.inr ⟨by simp, by simp⟩⟩
    · split
      · exact ⟨[], by simp, Or.inr ⟨by simp, by simp⟩⟩
      · rename_i jidx _ _ setup punch hjk
        have hmem : (setup, punch) ∈ jokes := List.getElem?_mem hjk
        obtain ⟨hsm, hpn⟩ := hjokes _ hmem
        simp only at hsm hpn
        simp only
        split
        · exact ⟨_, rfl, Or.inr ⟨by simp, by simp [sent_lines, hk]⟩⟩
        · split
          · refine ⟨[Event.send knock (s.sendOk.headD true), Event.recv (s.inbox.headD [])],
              by simp only [recv_line_log, send_line_log, List.append_assoc]; rfl,
              Or.inr ⟨by simp, by simp [sent_lines, hk]⟩⟩
          · split
            · refine ⟨[Event.send knock (s.sendOk.headD true), Event.recv (s.inbox.headD []),
                Event.send say_whos_there (s.sendOk.tail.headD true)],
                by simp only [recv_line_log, send_line_log, List.append_assoc]; rfl,
                Or.inr ⟨by simp, by simp [sent_lines, hk, hs]⟩⟩
            · split
              · refine ⟨[Event.send knock (s.sendOk.headD true), Event.recv (s.inbox.headD []),
                  Event.send (setup_msg setup) (s.sendOk.tail.headD true)],
                  by simp only [recv_line_log, send_line_log, List.append_assoc]; rfl,
                  Or.inr ⟨by simp, by simp [sent_lines, hk, Ne.symm hsm]⟩⟩
              · split
                · refine ⟨[Event.send knock (s.sendOk.headD true),
                    Event.recv (s.inbox.headD []),
                    Event.send (setup_msg setup) (s.sendOk.tail.headD true),
                    Event.recv (s.inbox.tail.headD [])],
                    by simp only [recv_line_log, send_line_log, List.append_assoc]; rfl,
                    Or.inr ⟨by simp, by simp [sent_lines, hk, Ne.symm hsm]⟩⟩
                · split
                  · refine ⟨[Event.send knock (s.sendOk.headD true),
                      Event.recv (s.inbox.headD []),
                      Event.send (setup_msg setup) (s.sendOk.tail.headD true),
                      Event.recv (s.inbox.tail.headD [])],
                      by simp only [recv_line_log, send_line_log, List.append_assoc]; rfl,
                      Or.inr ⟨by simp, by simp [sent_lines, hk, Ne.symm hsm]⟩⟩
                  · rename_i w hw
                    obtain ⟨ev, hev, hsent⟩ := who_loop_sent _ _ _ _ _ hw
                    refine ⟨[Event.send knock (s.sendOk.headD true),
                      Event.recv (s.inbox.headD []),
                      Event.send (setup_msg setup) (s.sendOk.tail.headD true),
                      Event.recv (s.inbox.tail.headD [])] ++ ev
                      ++ [Event.send punch (w.2.sendOk.headD true),
                          Event.send another (w.2.sendOk.tail.headD true),
                          Event.recv (w.2.inbox.headD [])], ?_, Or.inr ⟨?_, ?_⟩⟩
                    · rw [ask_another_log]
                      simp only [send_line_log, hev, recv_line_log, List.append_assoc,
                        send_line_inbox, send_line_sendOk]
                      rfl
                    · generalize ((w.2.send_line punch).2.send_line another).2 = t1
                      simp only [ask_another]
                      split
                      · simp
                      · split <;> simp
                    · intro hmem2
                      simp only [sent_lines_append, List.mem_append] at hmem2
                      rcases hmem2 with (hm | hm) | hm
                      · simp [sent_lines, hk, Ne.symm hsm] at hm
                      · rcases hsent _ hm with h | h
                        · exact remind_ne_no_more _ h.symm
                        · exact hk h
                      · simp [sent_lines, ha, Ne.symm hpn] at hm

theorem joke_loop_sentinel (jokes : List (Str × Str)) (idx : List Nat)
    (hjokes : ∀ p ∈ jokes, setup_msg p.1 ≠ no_more ∧ p.2 ≠ no_more) :
    ∀ (fuel pos : Nat) (s : Sock),
      ∃ ev, (joke_loop jokes idx fuel pos s).sock.log = s.log ++ ev
        ∧ (((joke_loop jokes idx fuel pos s).exit = Exit.exhausted
              ∧ ∃ pre ok, ev = pre ++ [Event.send no_more ok] ∧ no_more ∉ sent_lines pre)
            ∨ ((joke_loop jokes idx fuel pos s).exit ≠ Exit.exhausted
              ∧ no_more ∉ sent_lines ev)) := by
  intro fuel
  induction fuel with
  | zero =>
    intro pos s
    exact ⟨[], by simp [joke_loop], Or.inr ⟨by simp [joke_loop], by simp⟩⟩
  | succ n ih =>
    intro pos s
    obtain ⟨ev, hev, hcase⟩ := joke_round_sent jokes idx hjokes pos s
    simp only [joke_loop]
    rcases hr : joke_round jokes idx pos s with ⟨fl, p, s2⟩
    rw [hr] at hev hcase
    simp only at hev hcase
    cases fl with
    | brk why =>
      simp only
      refine ⟨ev, hev, ?_⟩
      rcases hcase with ⟨hfl, ok, hok⟩ | ⟨hfl, hno⟩
      · left
        refine ⟨by simpa using hfl, [], ok, by simpa using hok, by simp⟩
      · right
        exact ⟨by simpa using hfl, hno⟩
    | cont =>
      simp only
      have hno : no_more ∉ sent_lines ev := by
        rcases hcase with ⟨hfl, _⟩ | ⟨_, hno⟩
        · simp at hfl
        · exact hno
      obtain ⟨ev2, hev2, hcase2⟩ := ih p s2
      refine ⟨ev ++ ev2, by rw [hev2, hev, List.append_assoc], ?_⟩
      rcases hcase2 with ⟨hex, pre, ok, hpre, hnopre⟩ | ⟨hex, hno2⟩
      · left
        refine ⟨hex, ev ++ pre, ok, by rw [hpre, List.append_assoc], ?_⟩
        simp only [sent_lines_append, List.mem_append, not_or]
        exact ⟨hno, hnopre⟩
      · right
        refine ⟨hex, ?_⟩
        simp only [sent_lines_append, List.mem_append, not_or]
        exact ⟨hno, hno2⟩

/-- C6 as stated fails: with a joke whose punchline is the text of the sentinel,
the session of a cooperative client ends by exhausting the plan and the line
"I have no more jokes to tell." is sent twice. -/
theorem sentinel_twice :
    (client_thread [("Nobody".toList, "I have no more jokes to tell.".toList)] [0]
        ⟨["Who's there?".toList, "Nobody who?".toList, "Y".toList], [], []⟩).exit
      = Exit.exhausted
    ∧ (sent_lines (client_thread [("Nobody".toList, "I have no more jokes to tell.".toList)] [0]
        ⟨["Who's there?".toList, "Nobody who?".toList, "Y".toList], [], []⟩).sock.log).count
        no_more = 2 := by
  decide

/-- C6, amended: when no setup line as sent and no punchline of the store is the
text of the sentinel, then for every plan and every behaviour of the peer, a
session that ends by exhausting the plan sends "I have no more jokes to tell."
exactly once, and that send is the last event before the connection is closed. -/
theorem sentinel_once (jokes : List (Str × Str)) (idx : List Nat)
    (inbox : List Str) (sendOk : List Bool)
    (hjokes : ∀ p ∈ jokes, setup_msg p.1 ≠ no_more ∧ p.2 ≠ no_more)
    (hex : (client_thread jokes idx ⟨inbox, sendOk, []⟩).exit = Exit.exhausted) :
    (sent_lines (client_thread jokes idx ⟨inbox, sendOk, []⟩).sock.log).count no_more = 1
      ∧ ∃ pre ok,
          (client_thread jokes idx ⟨inbox, sendOk, []⟩).sock.log
            = pre ++ [Event.send no_more ok, Event.close]
          ∧ no_more ∉ sent_lines pre := by
  obtain ⟨ev, hev, hcase⟩ :=
    joke_loop_sentinel jokes idx hjokes (inbox.length + 1) 0 ⟨inbox, sendOk, []⟩
  simp only [client_thread, run] at hex ⊢
  simp only [List.nil_append] at hev
  rcases hcase with ⟨_, pre, ok, hpre, hno⟩ | ⟨hne, _⟩
  · rw [hev, hpre]
    refine ⟨?_, pre, ok, by simp, hno⟩
    simp only [sent_lines_append, List.count_append, List.count_eq_zero.mpr hno]
    simp [sent_lines]
  · exact absurd hex hne

/-- Instance of the amended C6 on the one-joke store with a cooperative client. -/
theorem sentinel_once_lettuce :
    (sent_lines (client_thread lettuce [0]
        ⟨["Who's there?".toList, "Lettuce who?".toList, "Y".toList], [], []⟩).sock.log).count
        no_more = 1 :=
  (sentinel_once lettuce [0] ["Who's there?".toList, "Lettuce who?".toList, "Y".toList] []
    (by decide) (by decide)).1

/-! ## `trim`, `iequals` and `recv_line` -/

theorem getD_eq_of_lt (s : Str) (a : Nat) (h : a < s.length) : s.getD a ' ' = s[a] := by
  simp [List.getD_eq_getElem?_getD, List.getElem?_eq_getElem h]

theorem trim_front_eq (s : Str) :
    ∀ (fuel a : Nat), s.length ≤ a + fuel →
      trim_front s s.length fuel a = a + ((s.drop a).takeWhile isspace).length := by
  intro fuel
  induction fuel with
  | zero =>
    intro a h
    have : s.drop a = [] := List.drop_eq_nil_of_le (by omega)
    simp [trim_front, this]
  | succ n ih =>
    intro a h
    simp only [trim_front]
    by_cases hlt : a < s.length
    · rw [List.drop_eq_getElem_cons hlt, List.takeWhile_cons, getD_eq_of_lt s a hlt]
      by_cases hsp : isspace s[a] = true
      · rw [if_pos ⟨hlt, hsp⟩, if_pos hsp, ih (a + 1) (by omega)]
        simp only [List.length_cons]
        omega
      · rw [if_neg (fun h => hsp h.2), if_neg hsp]
        simp
    · have : s.drop a = [] := List.drop_eq_nil_of_le (by omega)
      rw [if_neg (fun h => hlt h.1), this]
      simp

theorem trim_back_eq (s : Str) (a : Nat) :
    ∀ (b : Nat), a ≤ b → b ≤ s.length →
      trim_back s a b = a + (((s.take b).drop a).rdropWhile isspace).length := by
  intro b
  induction b with
  | zero =>
    intro ha _
    have : a = 0 := by omega
    subst this
    simp [trim_back]
  | succ n ih =>
    intro ha hb
    have hn : n < s.length := by omega
    simp only [trim_back]
    rw [getD_eq_of_lt s n hn]
    by_cases hlt : a ≤ n
    · have htake : s.take (n + 1) = s.take n ++ [s[n]] := by
        rw [List.take_succ, List.getElem?_eq_getElem hn]; rfl
      have hdrop : (s.take (n + 1)).drop a = (s.take n).drop a ++ [s[n]] := by
        rw [htake, List.drop_append_of_le_length (by simp; omega)]
      rw [hdrop, List.rdropWhile_concat]
      by_cases hsp : isspace s[n] = true
      · rw [if_pos ⟨by omega, hsp⟩, if_pos hsp]
        exact ih hlt (by omega)
      · rw [if_neg (fun h => hsp h.2), if_neg hsp]
        simp
        omega
    · have : a = n + 1 := by omega
      subst this
      rw [if_neg (fun h => by omega)]
      have hnil : (s.take (n + 1)).drop (n + 1) = [] :=
        List.drop_eq_nil_of_le (by simp)
      rw [hnil]
      simp

theorem drop_length_takeWhile (p : Char → Bool) (s : Str) :
    s.drop (s.takeWhile p).length = s.dropWhile p := by
  have h := List.drop_left (s.takeWhile p) (s.dropWhile p)
  rwa [List.takeWhile_append_dropWhile] at h

/-- The two index loops of `trim` remove the leading and the trailing white space. -/
theorem trim_eq (s : Str) : trim s = (s.dropWhile isspace).rdropWhile isspace := by
  have hle : (s.takeWhile isspace).length ≤ s.length := by
    have := congrArg List.length (List.takeWhile_append_dropWhile isspace s)
    simp only [List.length_append] at this
    omega
  have ha : trim_front s s.length s.length 0 = (s.takeWhile isspace).length := by
    rw [trim_front_eq s s.length 0 (by omega)]
    simp
  have hb : trim_back s (s.takeWhile isspace).length s.length
      = (s.takeWhile isspace).length + ((s.dropWhile isspace).rdropWhile isspace).length := by
    rw [trim_back_eq s _ s.length hle (le_refl _), List.take_length, drop_length_takeWhile]
  simp only [trim, ha, hb, drop_length_takeWhile, Nat.add_sub_cancel_left]
  exact (List.prefix_iff_eq_take.mp (List.rdropWhile_prefix isspace _)).symm

theorem trim_eq_nil_iff (s : Str) : trim s = [] ↔ ∀ c ∈ s, isspace c = true := by
  rw [trim_eq, List.rdropWhile_eq_nil_iff]
  constructor
  · intro h
    have hd : s.dropWhile isspace = [] := by
      by_contra hne
      have h1 := List.head_dropWhile_not isspace s hne
      have h2 := h _ (List.head_mem hne)
      rw [h1] at h2
      exact Bool.false_ne_true h2
    exact List.dropWhile_eq_nil_iff.mp hd
  · intro h
    rw [List.dropWhile_eq_nil_iff.mpr h]
    simp

/-- White space around a string that begins and ends with other characters is
removed by `trim`, and nothing else. -/
theorem trim_pad (p c q : Str) (hp : ∀ x ∈ p, isspace x = true) (hq : ∀ x ∈ q, isspace x = true)
    (hc : c ≠ []) (hhead : isspace (c.head hc) = false) (hlast : isspace (c.getLast hc) = false) :
    trim (p ++ c ++ q) = c := by
  rw [trim_eq, List.append_assoc, List.dropWhile_append_of_pos hp]
  have h1 : (c ++ q).dropWhile isspace = c ++ q := by
    cases c with
    | nil => exact absurd rfl hc
    | cons x xs =>
      simp only [List.head_cons] at hhead
      simp [List.dropWhile_cons, hhead]
  rw [h1]
  have h2 : ∀ (q : Str), (∀ x ∈ q, isspace x = true) →
      (c ++ q).rdropWhile isspace = c.rdropWhile isspace := by
    intro q
    induction q using List.reverseRecOn with
    | nil => intro _; simp
    | append_singleton l a ih =>
      intro hl
      rw [← List.append_assoc, List.rdropWhile_concat, if_pos (hl a (by simp))]
      exact ih (fun x hx => hl x (by simp [hx]))
  rw [h2 q hq, List.rdropWhile_eq_self_iff]
  intro hl
  simp [hlast]

theorem recv_loop_line (rest : List Char) :
    ∀ (r res : Str), '\n' ∉ r → res.length ≤ 2000 →
      (recv_loop res (r ++ '\n' :: rest)).1 = trim ((res ++ r).take 2001) := by
  intro r
  induction r with
  | nil =>
    intro res _ hres
    simp only [List.nil_append, recv_loop, if_true, List.append_nil]
    rw [List.take_of_length_le (by omega)]
  | cons c r ih =>
    intro res hr hres
    have hc : c ≠ '\n' := fun h => hr (by simp [h])
    have hr2 : '\n' ∉ r := fun h => hr (List.mem_cons_of_mem _ h)
    have e : (c :: r) ++ '\n' :: rest = c :: (r ++ '\n' :: rest) := rfl
    rw [e, recv_loop, if_neg hc]
    split
    · rename_i hlen
      simp only [List.length_append, List.length_singleton] at hlen
      have h2 : (res ++ c :: r).take 2001 = res ++ [c] := by
        have : res ++ c :: r = (res ++ [c]) ++ r := by simp
        rw [this, List.take_left' (by simp; omega)]
      rw [h2]
    · rename_i hlen
      simp only [List.length_append, List.length_singleton] at hlen
      rw [ih (res ++ [c]) hr2 (by simp; omega)]
      simp

/-- What `recv_line` returns for a line of the peer: its first 2001 bytes, trimmed. -/
theorem recv_line_line (r : Str) (rest : List Char) (hr : '\n' ∉ r) :
    (recv_line (r ++ '\n' :: rest)).1 = trim (r.take 2001) := by
  have := recv_loop_line rest r [] hr (by simp)
  simpa [recv_line] using this

/-- When the stream ends before a newline and before 2001 bytes, `recv_line`
returns the empty string. -/
theorem recv_loop_eof :
    ∀ (r res : Str), '\n' ∉ r → res.length + r.length ≤ 2000 →
      (recv_loop res r).1 = [] := by
  intro r
  induction r with
  | nil => intro res _ _; rfl
  | cons c r ih =>
    intro res hr hlen
    have hc : c ≠ '\n' := fun h => hr (by simp [h])
    have hr2 : '\n' ∉ r := fun h => hr (List.mem_cons_of_mem _ h)
    simp only [List.length_cons] at hlen
    simp only [recv_loop, if_neg hc, List.length_append, List.length_singleton]
    rw [if_neg (by omega)]
    exact ih _ hr2 (by simp; omega)

/-- The inbox computed by `deliver` is what successive `recv_line` calls return. -/
theorem deliver_head (stream : List Char) :
    ∀ (res : Str), (deliver res stream).headD [] = (recv_loop res stream).1 := by
  induction stream with
  | nil => intro res; rfl
  | cons c rest ih =>
    intro res
    simp only [deliver, recv_loop]
    split
    · rfl
    · split
      · rfl
      · exact ih _

theorem deliver_tail (stream : List Char) :
    ∀ (res : Str), (deliver res stream).tail = deliver [] (recv_loop res stream).2 := by
  induction stream with
  | nil => intro res; rfl
  | cons c rest ih =>
    intro res
    simp only [deliver, recv_loop]
    split
    · rfl
    · split
      · rfl
      · exact ih _

theorem iequals_iff (a b : Str) :
    iequals a b = true ↔
      a.length = b.length
        ∧ ∀ i, i < b.length → tolower (a.getD i ' ') = tolower (b.getD i ' ') := by
  unfold iequals
  by_cases h : a.length = b.length
  · simp [h, List.all_eq_true]
  · simp [h]

theorem tolower_toNat (c : Char) :
    (tolower c).toNat = if 65 ≤ c.toNat ∧ c.toNat ≤ 90 then c.toNat + 32 else c.toNat := by
  unfold tolower
  split
  · rename_i h
    obtain ⟨h1, h2⟩ := h
    generalize c.toNat = n at h1 h2
    interval_cases n <;> rfl
  · rfl

theorem isspace_tolower (c : Char) : isspace (tolower c) = isspace c := by
  unfold isspace
  rw [tolower_toNat]
  split
  · rename_i h
    have h1 : ¬ (c.toNat + 32 = 32) := by omega
    have h2 : ¬ (c.toNat = 32) := by omega
    have h3 : ¬ (c.toNat + 32 ≤ 13) := by omega
    have h4 : ¬ (c.toNat ≤ 13) := by omega
    simp [h1, h2, h3, h4]
  · rfl

/-- The inner loop on a reply that does not match starts with the reminder and
"Knock knock!". -/
theorem who_loop_first (expected : Str) (f : Nat) (resp : Str) (s : Sock) (w : Str × Sock)
    (hf : s.inbox.length < f) (hne : iequals resp expected = false)
    (h : who_loop expected f resp s = some w) :
    ∃ tail, w.2.log = s.log ++ Event.send (remind expected) (s.sendOk.headD true)
      :: Event.send knock (s.sendOk.tail.headD true) :: tail := by
  rw [who_loop_unfold _ _ _ _ hf] at h
  simp only [hne, Bool.not_false, ↓reduceIte] at h
  split at h
  · simp only [Option.some.injEq] at h
    subst h
    exact ⟨_, by simp only [recv_line_log, send_line_log, List.append_assoc,
      send_line_sendOk, send_line_inbox]; rfl⟩
  · obtain ⟨ev, hev⟩ := who_loop_log _ _ _ _ _ h
    rw [hev]
    simp only [recv_line_log, send_line_log, List.append_assoc, List.cons_append,
      List.nil_append, send_line_sendOk, send_line_inbox]
    exact ⟨_, rfl⟩

/-- A pass in which the reply to the setup line is not empty and does not
match: the reminder and "Knock knock!" are sent next. -/
theorem joke_round_reject (jokes : List (Str × Str)) (idx : List Nat) (pos j : Nat)
    (setup punch : Str) (hj : idx[pos]? = some j) (hjk : jokes[j]? = some (setup, punch))
    (r1 : Str) (h1 : iequals r1 whos_there = true) (r2 : Str) (inbox : List Str)
    (b1 b2 : Bool) (so : List Bool) (log : List Event)
    (h2 : r2 ≠ []) (hne : iequals r2 (setup ++ who) = false) :
    ∃ tail,
      (joke_round jokes idx pos ⟨r1 :: r2 :: inbox, true :: true :: b1 :: b2 :: so, log⟩).2.2.log
        = log ++ [Event.send knock true, Event.recv r1, Event.send (setup_msg setup) true,
                  Event.recv r2, Event.send (remind (setup ++ who)) b1, Event.send knock b2]
            ++ tail := by
  rw [joke_round_reach_who jokes idx pos j setup punch hj hjk r1 r2 inbox _ log (by rfl)
    (by rfl) h1 h2]
  obtain ⟨w, hw, _⟩ := who_loop_some (setup ++ who) (inbox.length + 1) r2
    ⟨inbox, (true :: true :: b1 :: b2 :: so).tail.tail,
      log ++ [Event.send knock true, Event.recv r1, Event.send (setup_msg setup) true,
              Event.recv r2]⟩ (Nat.lt_succ_self _)
  obtain ⟨tail, htail⟩ := who_loop_first _ _ _ _ _ (Nat.lt_succ_self _) hne hw
  rw [hw]
  simp only [ask_another_log, send_line_log, htail, List.tail_cons, List.headD_cons,
    List.append_assoc, List.cons_append, List.nil_append]
  exact ⟨_, rfl⟩

/-- A pass in which the reply to "Knock knock!" is empty ends the session. -/
theorem joke_round_empty (jokes : List (Str × Str)) (idx : List Nat) (pos j : Nat)
    (setup punch : Str) (hj : idx[pos]? = some j) (hjk : jokes[j]? = some (setup, punch))
    (inbox : List Str) (o : List Bool) (log : List Event) (hk : o.headD true = true) :
    joke_round jokes idx pos ⟨[] :: inbox, o, log⟩
      = (Flow.brk Exit.empty_read, pos,
          ⟨inbox, o.tail, log ++ [Event.send knock true, Event.recv []]⟩) := by
  have hlt := lt_length_of_getElem? hj
  simp at hk
  simp [joke_round, hj, hjk, Nat.not_le.mpr hlt, send_line_mk, recv_line_mk, hk]

/-! ## The setup line -/

/-- C8: for a non-empty setup, the line sent is the setup itself when it ends
in `.` or `!` and the setup followed by `.` otherwise; the line sent ends in `.`
or `!`; the reply that is accepted is the stored setup followed by " who?", and
when a `.` was appended, the sent line followed by " who?" is answered with the
reminder of the stored setup followed by " who?". -/
theorem setup_line_punctuation (jokes : List (Str × Str)) (idx : List Nat) (pos j : Nat)
    (setup punch : Str) (hj : idx[pos]? = some j) (hjk : jokes[j]? = some (setup, punch))
    (hne : setup ≠ []) (r1 : Str) (h1 : iequals r1 whos_there = true)
    (rest : List Str) (b1 b2 : Bool) (so : List Bool) (log : List Event) :
    ((setup.getLast hne = '.' ∨ setup.getLast hne = '!') → setup_msg setup = setup)
      ∧ (¬ (setup.getLast hne = '.' ∨ setup.getLast hne = '!') →
          setup_msg setup = setup ++ ['.'])
      ∧ ((setup_msg setup).getLast? = some '.' ∨ (setup_msg setup).getLast? = some '!')
      ∧ joke_round jokes idx pos
            ⟨r1 :: (setup ++ who) :: rest, true :: true :: b1 :: b2 :: so, log⟩
          = ask_another pos
              ⟨rest, so,
                log ++ [Event.send knock true, Event.recv r1,
                        Event.send (setup_msg setup) true, Event.recv (setup ++ who),
                        Event.send punch b1, Event.send another b2]⟩
      ∧ (setup_msg setup ≠ setup →
          ∃ tail,
            (joke_round jokes idx pos
              ⟨r1 :: (setup_msg setup ++ who) :: rest, true :: true :: b1 :: b2 :: so,
                log⟩).2.2.log
              = log ++ [Event.send knock true, Event.recv r1,
                        Event.send (setup_msg setup) true,
                        Event.recv (setup_msg setup ++ who),
                        Event.send (remind (setup ++ who)) b1, Event.send knock b2]
                  ++ tail) := by
  have hlast : setup.getLast? = some (setup.getLast hne) := List.getLast?_eq_getLast _ hne
  have hA : (setup.getLast hne = '.' ∨ setup.getLast hne = '!') → setup_msg setup = setup := by
    intro h
    unfold setup_msg
    rw [if_neg]
    rw [hlast]
    rcases h with h | h <;> simp [h]
  have hB : ¬ (setup.getLast hne = '.' ∨ setup.getLast hne = '!') →
      setup_msg setup = setup ++ ['.'] := by
    intro h
    unfold setup_msg
    rw [if_pos]
    rw [hlast]
    simp only [not_or] at h
    simp [hne, h.1, h.2, List.isEmpty_iff]
  refine ⟨hA, hB, ?_, ?_, ?_⟩
  · by_cases h : setup.getLast hne = '.' ∨ setup.getLast hne = '!'
    · rw [hA h, hlast]
      rcases h with h | h <;> simp [h]
    · rw [hB h]
      simp
  · have := joke_round_corrections jokes idx pos j setup punch hj hjk r1 h1 [] (setup ++ who)
      rest b1 b2 so log (by simp) (iequals_refl _)
    simpa using this
  · intro hdiff
    have hsm : setup_msg setup = setup ++ ['.'] := by
      by_cases h : setup.getLast hne = '.' ∨ setup.getLast hne = '!'
      · exact absurd (hA h) hdiff
      · exact hB h
    apply joke_round_reject jokes idx pos j setup punch hj hjk r1 h1
    · simp [who]
    · rw [hsm]
      cases hq : iequals (setup ++ ['.'] ++ who) (setup ++ who) with
      | false => rfl
      | true =>
        have := iequals_length hq
        simp at this

/-- Instance of C8 on the one-joke store: "Lettuce" is sent as "Lettuce." and
the reply "Lettuce who?" is accepted. -/
theorem setup_line_punctuation_lettuce :
    setup_msg "Lettuce".toList = "Lettuce.".toList
      ∧ joke_round lettuce [0] 0
            ⟨["Who's there?".toList, "Lettuce who?".toList, "N".toList],
              [true, true, true, true], []⟩
          = ask_another 0
              ⟨["N".toList], [],
                [Event.send knock true, Event.recv "Who's there?".toList,
                 Event.send "Lettuce.".toList true, Event.recv "Lettuce who?".toList,
                 Event.send "Lettuce in, it's cold out here!".toList true,
                 Event.send another true]⟩ :=
  ⟨(setup_line_punctuation lettuce [0] 0 0 "Lettuce".toList
      "Lettuce in, it's cold out here!".toList (by decide) (by decide) (by decide)
      "Who's there?".toList (by decide) ["N".toList] true true [] []).2.1 (by decide),
   (setup_line_punctuation lettuce [0] 0 0 "Lettuce".toList
      "Lettuce in, it's cold out here!".toList (by decide) (by decide) (by decide)
      "Who's there?".toList (by decide) ["N".toList] true true [] []).2.2.2.1⟩

/-! ## Failed sends -/

/-- C9, the code at a failing input: the peer answers "Who's there?" and
"Lettuce who?" and is gone; the send of the punchline fails.  The result of
that send is not looked at: the continue prompt is still sent and one more read
is made before the connection is closed. -/
theorem failed_punchline_send_goes_on :
    (client_thread lettuce [0]
        ⟨["Who's there?".toList, "Lettuce who?".toList], [true, true, false, false], []⟩).sock.log
      = [Event.send knock true, Event.recv "Who's there?".toList,
         Event.send "Lettuce.".toList true, Event.recv "Lettuce who?".toList,
         Event.send "Lettuce in, it's cold out here!".toList false,
         Event.send another false, Event.recv [], Event.close] := by
  decide

/-! ## The second reply on the wire -/

/-- A pass in which the reply to the setup line is empty ends the session. -/
theorem joke_round_empty_second (jokes : List (Str × Str)) (idx : List Nat) (pos j : Nat)
    (setup punch : Str) (hj : idx[pos]? = some j) (hjk : jokes[j]? = some (setup, punch))
    (r1 : Str) (h1 : iequals r1 whos_there = true) (inbox : List Str) (o : List Bool)
    (log : List Event) :
    joke_round jokes idx pos ⟨r1 :: [] :: inbox, true :: true :: o, log⟩
      = (Flow.brk Exit.empty_read, pos,
          ⟨inbox, o, log ++ [Event.send knock true, Event.recv r1,
                             Event.send (setup_msg setup) true, Event.recv []]⟩) := by
  have hlt := lt_length_of_getElem? hj
  have hr1 : r1 ≠ [] := by
    intro h
    rw [h] at h1
    revert h1
    decide
  simp [joke_round, hj, hjk, Nat.not_le.mpr hlt, send_line_mk, recv_line_mk, h1, hr1,
    List.isEmpty_iff]

/-- A string equal up to case to `setup + " who?"`, for a setup that begins
with a character other than white space, begins and ends with such characters. -/
theorem variant_ends (setup c : Str) (hs : setup ≠ []) (hhead : isspace (setup.head hs) = false)
    (hc : iequals c (setup ++ who) = true) :
    ∃ h : c ≠ [], isspace (c.head h) = false ∧ isspace (c.getLast h) = false := by
  obtain ⟨hlen, hall⟩ := (iequals_iff _ _).mp hc
  have hwho : who.length = 5 := rfl
  have hlen2 : c.length = setup.length + 5 := by
    rw [hlen, List.length_append, hwho]
  have hc0 : c ≠ [] := by
    intro h
    rw [h] at hlen2
    simp at hlen2
  refine ⟨hc0, ?_, ?_⟩
  · have h0 := hall 0 (by rw [← hlen, hlen2]; omega)
    have e1 : c.getD 0 ' ' = c.head hc0 := by
      cases c with
      | nil => exact absurd rfl hc0
      | cons x xs => rfl
    have e2 : (setup ++ who).getD 0 ' ' = setup.head hs := by
      cases setup with
      | nil => exact absurd rfl hs
      | cons x xs => rfl
    rw [e1, e2] at h0
    rw [← isspace_tolower, h0, isspace_tolower]
    exact hhead
  · have hn := hall (setup.length + 4) (by rw [List.length_append, hwho]; omega)
    have e1 : c.getD (setup.length + 4) ' ' = c.getLast hc0 := by
      rw [List.getLast_eq_getElem, getD_eq_of_lt c _ (by omega)]
      congr 1
      omega
    have e2 : (setup ++ who).getD (setup.length + 4) ' ' = '?' := by
      rw [getD_eq_of_lt _ _ (by rw [List.length_append, hwho]; omega),
        List.getElem_append_right (by omega)]
      simp [who]
    rw [e1, e2] at hn
    rw [← isspace_tolower, hn]
    decide

/-- C7, amended: a line `r` of at most 2000 bytes sent in reply to the setup
line is received at line 124 as `trim r`.  The server accepts it (it passes the
tests of lines 125 and 129, and the punchline is the next line sent) iff
`trim r` has the length of `setup + " who?"` and equals it position by position
up to `tolower`; a reply that fails this is not followed by the punchline: a
non-empty one gets the reminder, an empty one makes line 125 leave the loop.
Hence, for a setup that begins with a character other than white space, every
casing variant of `setup + " who?"` with white space around it, of at most 2000
bytes in all, is accepted, and a reply of at most 2000 bytes whose trimmed text
differs from `setup + " who?"` in length or, up to case, in a character is not. -/
theorem second_reply_accepted_iff (jokes : List (Str × Str)) (idx : List Nat) (pos j : Nat)
    (setup punch : Str) (hj : idx[pos]? = some j) (hjk : jokes[j]? = some (setup, punch))
    (r1 : Str) (h1 : iequals r1 "Who's there?".toList = true)
    (r : Str) (rest : List Char) (hr : '\n' ∉ r) (hlen : r.length ≤ 2000) (resp : Str)
    (hresp : resp = (recv_line (r ++ '\n' :: rest)).1)
    (inbox : List Str) (b1 b2 : Bool) (so : List Bool) (log : List Event) :
    resp = trim r
      ∧ ((resp ≠ [] ∧ iequals resp (setup ++ " who?".toList) = true) ↔
          ((trim r).length = (setup ++ " who?".toList).length
            ∧ ∀ i, i < (setup ++ " who?".toList).length →
                tolower ((trim r).getD i ' ')
                  = tolower ((setup ++ " who?".toList).getD i ' ')))
      ∧ (resp ≠ [] ∧ iequals resp (setup ++ " who?".toList) = true →
          joke_round jokes idx pos ⟨r1 :: resp :: inbox, true :: true :: b1 :: b2 :: so, log⟩
            = ask_another pos
                ⟨inbox, so,
                  log ++ [Event.send "Knock knock!".toList true, Event.recv r1,
                          Event.send (setup_msg setup) true, Event.recv resp,
                          Event.send punch b1,
                          Event.send "Would you like to listen to another? (Y/N)".toList b2]⟩)
      ∧ (resp ≠ [] → iequals resp (setup ++ " who?".toList) = false →
          ∃ tail,
            (joke_round jokes idx pos
              ⟨r1 :: resp :: inbox, true :: true :: b1 :: b2 :: so, log⟩).2.2.log
              = log ++ [Event.send "Knock knock!".toList true, Event.recv r1,
                        Event.send (setup_msg setup) true, Event.recv resp,
                        Event.send ("You are supposed to say, \"".toList
                          ++ (setup ++ " who?".toList) ++ "\". Let's try again.".toList) b1,
                        Event.send "Knock knock!".toList b2]
                  ++ tail)
      ∧ (resp = [] →
          joke_round jokes idx pos ⟨r1 :: resp :: inbox, true :: true :: b1 :: b2 :: so, log⟩
            = (Flow.brk Exit.empty_read, pos,
                ⟨inbox, b1 :: b2 :: so,
                  log ++ [Event.send "Knock knock!".toList true, Event.recv r1,
                          Event.send (setup_msg setup) true, Event.recv []]⟩))
      ∧ (∀ (p c q : Str) (hs : setup ≠ []), isspace (setup.head hs) = false →
          (∀ x ∈ p, isspace x = true) → (∀ x ∈ q, isspace x = true) →
          iequals c (setup ++ " who?".toList) = true → r = p ++ c ++ q →
          resp = c ∧ resp ≠ [] ∧ iequals resp (setup ++ " who?".toList) = true)
      ∧ (∀ (p c q : Str) (hc : c ≠ []), isspace (c.head hc) = false →
          isspace (c.getLast hc) = false →
          (∀ x ∈ p, isspace x = true) → (∀ x ∈ q, isspace x = true) → r = p ++ c ++ q →
          (c.length ≠ (setup ++ " who?".toList).length
            ∨ ∃ i, i < (setup ++ " who?".toList).length
                ∧ tolower (c.getD i ' ') ≠ tolower ((setup ++ " who?".toList).getD i ' ')) →
          resp = c ∧ resp ≠ [] ∧ iequals resp (setup ++ " who?".toList) = false) := by
  have hresp2 : resp = trim r := by
    rw [hresp, recv_line_line r rest hr, List.take_of_length_le (by omega)]
  have hwho : who = " who?".toList := rfl
  have hwt : whos_there = "Who's there?".toList := rfl
  rw [← hwho]
  rw [← hwt] at h1
  refine ⟨hresp2, ?_, ?_, ?_, ?_, ?_, ?_⟩
  · rw [← hresp2, iequals_iff]
    constructor
    · intro h; exact h.2
    · intro h
      refine ⟨?_, h⟩
      intro h0
      have := h.1
      rw [h0] at this
      simp [who] at this
  · intro h
    have := joke_round_corrections jokes idx pos j setup punch hj hjk r1 h1 [] resp
      inbox b1 b2 so log (by simp) h.2
    simpa using this
  · intro h0 hne
    exact joke_round_reject jokes idx pos j setup punch hj hjk r1 h1 resp inbox b1 b2 so log
      h0 hne
  · intro h0
    rw [h0]
    exact joke_round_empty_second jokes idx pos j setup punch hj hjk r1 h1 inbox _ log
  · intro p c q hs hhead hp hq hc hrc
    obtain ⟨hc0, hch, hcl⟩ := variant_ends setup c hs hhead hc
    have : resp = c := by
      rw [hresp2, hrc]
      exact trim_pad p c q hp hq hc0 hch hcl
    rw [this]
    exact ⟨rfl, hc0, hc⟩
  · intro p c q hc hch hcl hp hq hrc hdiff
    have : resp = c := by
      rw [hresp2, hrc]
      exact trim_pad p c q hp hq hc hch hcl
    rw [this]
    refine ⟨rfl, hc, ?_⟩
    cases hiq : iequals c (setup ++ who) with
    | false => rfl
    | true =>
      exfalso
      obtain ⟨hl, hall⟩ := (iequals_iff _ _).mp hiq
      rcases hdiff with hd | ⟨i, hi, hd⟩
      · exact hd hl
      · exact hd (hall i hi)

/-- Instance of the amended C7 on the one-joke store: the line
"  lettuce WHO? " is received as "lettuce WHO?" and the punchline follows. -/
theorem second_reply_accepted_iff_lettuce :
    "lettuce WHO?".toList = trim "  lettuce WHO? ".toList
      ∧ joke_round lettuce [0] 0
          ⟨["Who's there?".toList, "lettuce WHO?".toList, "N".toList],
            [true, true, true, true], []⟩
        = ask_another 0
            ⟨["N".toList], [],
              [Event.send "Knock knock!".toList true, Event.recv "Who's there?".toList,
               Event.send "Lettuce.".toList true, Event.recv "lettuce WHO?".toList,
               Event.send "Lettuce in, it's cold out here!".toList true,
               Event.send "Would you like to listen to another? (Y/N)".toList true]⟩ :=
  ⟨(second_reply_accepted_iff lettuce [0] 0 0 "Lettuce".toList
      "Lettuce in, it's cold out here!".toList (by decide) (by decide)
      "Who's there?".toList (by decide) "  lettuce WHO? ".toList [] (by decide) (by decide)
      "lettuce WHO?".toList (by decide) ["N".toList] true true [] []).1,
   (second_reply_accepted_iff lettuce [0] 0 0 "Lettuce".toList
      "Lettuce in, it's cold out here!".toList (by decide) (by decide)
      "Who's there?".toList (by decide) "  lettuce WHO? ".toList [] (by decide) (by decide)
      "lettuce WHO?".toList (by decide) ["N".toList] true true [] []).2.2.1
      ⟨by decide, by decide⟩⟩

theorem long_second_reply_aux (n : Nat) (hn : n + 6 = 2001) :
    (recv_line (("A who?".toList ++ List.replicate n ' ' ++ ['x']) ++ '\n' :: [])).1
        = "A who?".toList
      ∧ trim ("A who?".toList ++ List.replicate n ' ' ++ ['x'])
        = "A who?".toList ++ List.replicate n ' ' ++ ['x'] := by
  have hsp : ∀ x ∈ List.replicate n ' ', isspace x = true := by
    intro x hx
    rw [(List.mem_replicate.mp hx).2]
    decide
  have hr : '\n' ∉ "A who?".toList ++ List.replicate n ' ' ++ ['x'] := by
    intro h
    simp only [List.mem_append, List.mem_replicate, List.mem_singleton] at h
    rcases h with (h | h) | h
    · revert h; decide
    · exact absurd h.2 (by decide)
    · exact absurd h (by decide)
  constructor
  · rw [recv_line_line _ _ hr,
      List.take_left' (by simp only [List.length_append, List.length_replicate]
                          exact hn.symm ▸ (by simp [Nat.add_comm]))]
    exact trim_pad [] "A who?".toList (List.replicate n ' ') (by simp) hsp (by decide)
      (by decide) (by decide)
  · have hne : "A who?".toList ++ List.replicate n ' ' ++ ['x'] ≠ [] := by simp
    have := trim_pad [] ("A who?".toList ++ List.replicate n ' ' ++ ['x']) [] (by simp)
      (by simp) hne (by
        have e : "A who?".toList ++ List.replicate n ' ' ++ ['x']
            = 'A' :: (" who?".toList ++ List.replicate n ' ' ++ ['x']) := rfl
        simp only [e, List.head_cons]
        decide) (by
        rw [List.getLast_append_singleton]
        decide)
    simpa using this

/-- C7 as stated fails for a long line: for the setup "A", the line "A who?"
followed by 1995 spaces and "x" is received as "A who?" and passes the tests of
lines 125 and 129, while `trim` of the whole line has 2002 characters and not
the 6 of "A who?". -/
theorem long_second_reply_accepted :
    (recv_line (("A who?".toList ++ List.replicate 1995 ' ' ++ ['x']) ++ '\n' :: [])).1 ≠ []
      ∧ iequals
          (recv_line (("A who?".toList ++ List.replicate 1995 ' ' ++ ['x']) ++ '\n' :: [])).1
          ("A".toList ++ who) = true
      ∧ (trim ("A who?".toList ++ List.replicate 1995 ' ' ++ ['x'])).length
          ≠ ("A".toList ++ who).length := by
  obtain ⟨h1, h2⟩ := long_second_reply_aux 1995 rfl
  rw [h1, h2]
  refine ⟨by decide, by decide, ?_⟩
  simp only [List.length_append, List.length_replicate]
  decide

/-! ## Empty reads -/

/-- C10 as stated fails: a line of one space is received as the empty string,
exactly like the end of the stream, and the session in which the peer answers
"Knock knock!" with a blank line and then goes on with the right replies is
closed after that blank line, without a correction. -/
theorem blank_line_ends_session :
    (recv_line " \n".toList).1 = (recv_line []).1
      ∧ (client_thread lettuce [0]
          ⟨deliver [] "\nWho's there?\nLettuce who?\nY\n".toList, [], []⟩).sock.log
        = [Event.send knock true, Event.recv [], Event.close] := by
  decide

/-- In the inner loop, a reply read at line 135 that is not empty and does not
match is answered with the reminder and "Knock knock!", like the reply before it. -/
theorem who_loop_second (expected cur resp : Str) (inbox : List Str) (b1 b2 : Bool)
    (so : List Bool) (log : List Event) (f : Nat) (hf : inbox.length + 1 < f)
    (hcur : iequals cur expected = false) (h0 : resp ≠ [])
    (hne : iequals resp expected = false) :
    ∃ w tail,
      who_loop expected f cur ⟨resp :: inbox, true :: true :: b1 :: b2 :: so, log⟩ = some w
        ∧ w.2.log = log ++ [Event.send (remind expected) true, Event.send knock true,
                            Event.recv resp, Event.send (remind expected) b1,
                            Event.send knock b2] ++ tail := by
  rw [who_loop_unfold _ _ _ _ (by simpa using hf)]
  simp only [hcur, Bool.not_false, ↓reduceIte, List.headD_cons, List.isEmpty_iff, h0,
    send_line_mk, recv_line_mk, List.tail_cons]
  obtain ⟨w, hw, _⟩ := who_loop_some expected (inbox.length + 1) resp
    ⟨inbox, b1 :: b2 :: so,
      log ++ [Event.send (remind expected) true] ++ [Event.send knock true]
        ++ [Event.recv resp]⟩ (Nat.lt_succ_self _)
  obtain ⟨tail, htail⟩ := who_loop_first _ _ _ _ _ (Nat.lt_succ_self _) hne hw
  refine ⟨w, tail, hw, ?_⟩
  rw [htail]
  simp

/-- C10, amended: `recv_line` returns the empty string when the stream has
ended (also in the middle of a line), and a delivered line of at most 2000
bytes is received as `trim` of it, which is empty exactly when the line is
blank or all white space.  An empty result of the read of line 108, of line 124
or of line 150 ends the session at once.  A delivered line that is received as
a non-empty string and does not match the expected phrase is answered with the
correction line, and the session goes on: after "Knock knock!" with the
correction of line 113 and a new pass, after the setup line and inside the
inner loop with the reminder and "Knock knock!". -/
theorem empty_read_iff (jokes : List (Str × Str)) (idx : List Nat) (pos j : Nat)
    (setup punch : Str) (hj : idx[pos]? = some j) (hjk : jokes[j]? = some (setup, punch))
    (r : Str) (rest : List Char) (hr : '\n' ∉ r) (hlen : r.length ≤ 2000) (resp : Str)
    (hresp : resp = (recv_line (r ++ '\n' :: rest)).1)
    (inbox : List Str) (b1 b2 : Bool) (so : List Bool) (log : List Event) :
    (recv_line []).1 = []
      ∧ (recv_line r).1 = []
      ∧ resp = trim r
      ∧ (resp = [] ↔ ∀ c ∈ r, isspace c = true)
      ∧ (resp = [] →
          run jokes idx pos ⟨resp :: inbox, true :: b1 :: so, log⟩
            = ⟨⟨inbox, b1 :: so, log ++ [Event.send knock true, Event.recv []]⟩,
                pos, Exit.empty_read⟩)
      ∧ (∀ r1, iequals r1 whos_there = true → resp = [] →
          run jokes idx pos ⟨r1 :: resp :: inbox, true :: true :: b1 :: so, log⟩
            = ⟨⟨inbox, b1 :: so,
                  log ++ [Event.send knock true, Event.recv r1,
                          Event.send (setup_msg setup) true, Event.recv []]⟩,
                pos, Exit.empty_read⟩)
      ∧ (∀ s s1 : Sock, joke_round jokes idx pos s = ask_another pos s1 →
          s1.inbox = resp :: inbox → resp = [] →
          run jokes idx pos s
            = ⟨⟨inbox, s1.sendOk, s1.log ++ [Event.recv []]⟩, pos, Exit.empty_read⟩)
      ∧ (resp ≠ [] → iequals resp whos_there = false →
          joke_round jokes idx pos ⟨resp :: inbox, true :: b1 :: so, log⟩
            = (Flow.cont, pos,
                ⟨inbox, so,
                  log ++ [Event.send knock true, Event.recv resp,
                          Event.send say_whos_there b1]⟩))
      ∧ (∀ r1, iequals r1 whos_there = true → resp ≠ [] →
          iequals resp (setup ++ who) = false →
          ∃ tail,
            (joke_round jokes idx pos
              ⟨r1 :: resp :: inbox, true :: true :: b1 :: b2 :: so, log⟩).2.2.log
              = log ++ [Event.send knock true, Event.recv r1,
                        Event.send (setup_msg setup) true, Event.recv resp,
                        Event.send (remind (setup ++ who)) b1, Event.send knock b2]
                  ++ tail)
      ∧ (∀ (cur : Str) (f : Nat), inbox.length + 1 < f →
          iequals cur (setup ++ who) = false → resp ≠ [] →
          iequals resp (setup ++ who) = false →
          ∃ w tail,
            who_loop (setup ++ who) f cur
                ⟨resp :: inbox, true :: true :: b1 :: b2 :: so, log⟩ = some w
              ∧ w.2.log
                = log ++ [Event.send (remind (setup ++ who)) true, Event.send knock true,
                          Event.recv resp, Event.send (remind (setup ++ who)) b1,
                          Event.send knock b2] ++ tail) := by
  have hresp2 : resp = trim r := by
    rw [hresp, recv_line_line r rest hr, List.take_of_length_le (by omega)]
  refine ⟨rfl, ?_, hresp2, ?_, ?_, ?_, ?_, ?_, ?_, ?_⟩
  · exact recv_loop_eof r [] hr (by simpa using hlen)
  · rw [hresp2]
    exact trim_eq_nil_iff _
  · intro h0
    rw [h0, run_unfold,
      joke_round_empty jokes idx pos j setup punch hj hjk inbox (true :: b1 :: so) log rfl]
    rfl
  · intro r1 h1 h0
    rw [h0, run_unfold,
      joke_round_empty_second jokes idx pos j setup punch hj hjk r1 h1 inbox _ log]
    rfl
  · intro s s1 hreach hin h0
    obtain ⟨i1, o1, l1⟩ := s1
    simp only at hin
    subst hin
    rw [run_unfold, hreach, ask_another_empty _ _ (by simpa using h0), h0]
    rfl
  · intro h0 hne
    exact joke_round_wrong jokes idx pos j setup punch hj hjk resp inbox _ log rfl h0 hne
  · intro r1 h1 h0 hne
    exact joke_round_reject jokes idx pos j setup punch hj hjk r1 h1 resp inbox b1 b2 so log
      h0 hne
  · intro cur f hf hcur h0 hne
    exact who_loop_second (setup ++ who) cur resp inbox b1 b2 so log f hf hcur h0 hne

/-- Instance of the amended C10 on the one-joke store: the line "Hello" in
answer to "Knock knock!" is followed by the correction line and the loop
continues. -/
theorem empty_read_iff_lettuce :
    joke_round lettuce [0] 0 ⟨["Hello".toList, "Who's there?".toList], [true, true], []⟩
      = (Flow.cont, 0,
          ⟨["Who's there?".toList], [],
            [Event.send "Knock knock!".toList true, Event.recv "Hello".toList,
             Event.send "You are supposed to say, \"Who's there?\". Let's try again.".toList
               true]⟩) :=
  (empty_read_iff lettuce [0] 0 0 "Lettuce".toList "Lettuce in, it's cold out here!".toList
    (by decide) (by decide) "Hello".toList [] (by decide) (by decide) "Hello".toList
    (by decide) ["Who's there?".toList] true true [] []).2.2.2.2.2.2.2.1 (by decide) (by decide)

/-! ## The length of a received message -/

theorem trim_replicate_a (m : Nat) (hm : 0 < m) :
    trim (List.replicate m 'a') = List.replicate m 'a' := by
  have hne : List.replicate m 'a' ≠ [] := by
    intro h
    have := congrArg List.length h
    simp at this
    omega
  have := trim_pad [] (List.replicate m 'a') [] (by simp) (by simp) hne
    (by rw [List.head_replicate]; decide) (by rw [List.getLast_replicate]; decide)
  simpa using this

theorem recv_line_long_a (n : Nat) (hn : 2001 ≤ n) (rest : List Char) :
    (recv_line (List.replicate n 'a' ++ '\n' :: rest)).1 = List.replicate 2001 'a' := by
  have hr : '\n' ∉ List.replicate n 'a' := by
    intro h
    exact absurd (List.mem_replicate.mp h).2 (by decide)
  rw [recv_line_line _ _ hr, List.take_replicate, Nat.min_eq_left hn]
  exact trim_replicate_a 2001 (by omega)

/-- C11, the code at a failing input: a line of 2001 letters is returned whole,
and a line of 3000 letters is cut to its first 2001 letters, so `recv_line`
returns messages of 2001 bytes. -/
theorem recv_line_2001_bytes :
    ((recv_line (List.replicate 2001 'a' ++ '\n' :: [])).1).length = 2001
      ∧ ((recv_line (List.replicate 3000 'a' ++ '\n' :: [])).1).length = 2001 := by
  rw [recv_line_long_a 2001 (le_refl _), recv_line_long_a 3000 (by omega)]
  simp only [List.length_replicate, and_self]

/-! ## The joke store -/

/-- C12, the code at a failing input: a file whose two lines are "Lettuce" and
an empty line (or a line of spaces) is loaded as a joke with an empty punchline. -/
theorem empty_punchline_loaded :
    load_jokes ["Lettuce".toList, []] = [("Lettuce".toList, [])]
      ∧ load_jokes ["Lettuce".toList, "   ".toList] = [("Lettuce".toList, [])] := by
  decide

/-! ## The accept loop -/

/-- C13 as stated fails: when the wait itself fails (`select` returns a negative
value), the loop is left although sessions are active and nothing timed out. -/
theorem wait_failure_leaves_loop :
    accept_step Wait.failed 3 = Pass.leave
      ∧ accept_loop [(Wait.ready true, 0), (Wait.failed, 1)] = (1, true) := by
  decide

theorem accept_loop_left : ∀ (evs : List (Wait × Int)),
    (accept_loop evs).2 = true ↔ ∃ e ∈ evs, accept_step e.1 e.2 = Pass.leave := by
  intro evs
  induction evs with
  | nil => simp [accept_loop]
  | cons e rest ih =>
    obtain ⟨w, n⟩ := e
    simp only [accept_loop, List.mem_cons, exists_eq_or_imp]
    cases h : accept_step w n with
    | leave => simp
    | go_on => simp [ih]
    | spawn => simp [ih]

/-- C13, amended: in a pass where the wait times out, the accept loop is left
iff the session count is zero at that moment, and with any other count it goes
on waiting; in a pass where a connection is ready but `accept` fails, the loop
goes on; the loop is left in exactly one other case, when the wait itself
fails.  So the loop over a sequence of passes is left iff one of them is a
timeout with count zero or a failed wait, and a first pass that times out with
no session leaves it with no session started. -/
theorem accept_step_leave (w : Wait) (n : Int) (evs : List (Wait × Int)) :
    (accept_step Wait.timed_out n = Pass.leave ↔ n = 0)
      ∧ (n ≠ 0 → accept_step Wait.timed_out n = Pass.go_on)
      ∧ accept_step (Wait.ready false) n = Pass.go_on
      ∧ accept_step (Wait.ready true) n = Pass.spawn
      ∧ (accept_step w n = Pass.leave ↔ (w = Wait.timed_out ∧ n = 0) ∨ w = Wait.failed)
      ∧ ((accept_loop evs).2 = true ↔
          ∃ e ∈ evs, (e.1 = Wait.timed_out ∧ e.2 = 0) ∨ e.1 = Wait.failed)
      ∧ accept_loop ((Wait.timed_out, 0) :: evs) = (0, true) := by
  have hstep : ∀ (w : Wait) (n : Int),
      accept_step w n = Pass.leave ↔ (w = Wait.timed_out ∧ n = 0) ∨ w = Wait.failed := by
    intro w n
    cases w with
    | failed => simp [accept_step]
    | timed_out =>
      by_cases h : n = 0 <;> simp [accept_step, h]
    | ready b => cases b <;> simp [accept_step]
  refine ⟨?_, ?_, rfl, rfl, hstep w n, ?_, ?_⟩
  · by_cases h : n = 0 <;> simp [accept_step, h]
  · intro h
    simp [accept_step, h]
  · rw [accept_loop_left]
    constructor
    · rintro ⟨e, he, hl⟩
      exact ⟨e, he, (hstep _ _).mp hl⟩
    · rintro ⟨e, he, hl⟩
      exact ⟨e, he, (hstep _ _).mpr hl⟩
  · simp [accept_loop, accept_step]

/-- Instance of the amended C13: with two sessions active a timeout keeps the
loop going. -/
theorem accept_step_leave_active :
    accept_step Wait.timed_out 2 = Pass.go_on :=
  (accept_step_leave Wait.timed_out 2 []).2.1 (by decide)

/-! ## `trim` -/

theorem rdropWhile_append_rtakeWhile (p : Char → Bool) (l : Str) :
    l.rdropWhile p ++ l.rtakeWhile p = l := by
  unfold List.rdropWhile List.rtakeWhile
  rw [← List.reverse_append, List.takeWhile_append_dropWhile, List.reverse_reverse]

theorem trim_head_last (s : Str) (h : trim s ≠ []) :
    isspace ((trim s).head h) = false ∧ isspace ((trim s).getLast h) = false := by
  have hd : s.dropWhile isspace ≠ [] := by
    intro h0
    apply h
    rw [trim_eq, h0]
    rfl
  constructor
  · obtain ⟨t, ht⟩ := List.rdropWhile_prefix isspace (s.dropWhile isspace)
    have h1 := List.head_dropWhile_not isspace s hd
    have h2 : (s.dropWhile isspace).head hd = (trim s).head h := by
      have e : s.dropWhile isspace = trim s ++ t := by rw [trim_eq]; exact ht.symm
      simp only [e]
      exact List.head_append_of_ne_nil h
    rw [← h2]
    exact h1
  · have h' : (s.dropWhile isspace).rdropWhile isspace ≠ [] := by rw [← trim_eq]; exact h
    have h1 := List.rdropWhile_last_not isspace (s.dropWhile isspace) h'
    have h2 : ((s.dropWhile isspace).rdropWhile isspace).getLast h' = (trim s).getLast h := by
      simp only [trim_eq]
    rw [← h2]
    simpa using h1

theorem trim_trim (s : Str) : trim (trim s) = trim s := by
  by_cases h : trim s = []
  · rw [h]; rfl
  · obtain ⟨h1, h2⟩ := trim_head_last s h
    have := trim_pad [] (trim s) [] (by simp) (by simp) h h1 h2
    simpa using this

/-- C17: `trim` (the same function in server.cpp and client.cpp) returns the
part of `s` between its longest prefix of `isspace` characters and the longest
suffix of `isspace` characters of what follows that prefix; the result is empty
or begins and ends with a character that is not white space; it is empty iff
`s` consists of white space only; and `trim` is idempotent. -/
theorem trim_spec (s : Str) :
    s = s.takeWhile isspace ++ trim s ++ (s.dropWhile isspace).rtakeWhile isspace
      ∧ (∀ c ∈ s.takeWhile isspace, isspace c = true)
      ∧ (∀ c ∈ (s.dropWhile isspace).rtakeWhile isspace, isspace c = true)
      ∧ (trim s = [] ∨
          ∃ h : trim s ≠ [],
            isspace ((trim s).head h) = false ∧ isspace ((trim s).getLast h) = false)
      ∧ (trim s = [] ↔ ∀ c ∈ s, isspace c = true)
      ∧ trim (trim s) = trim s := by
  refine ⟨?_, ?_, ?_, ?_, trim_eq_nil_iff s, trim_trim s⟩
  · rw [trim_eq, List.append_assoc, rdropWhile_append_rtakeWhile,
      List.takeWhile_append_dropWhile]
  · intro c hc
    exact List.mem_takeWhile_imp hc
  · intro c hc
    exact List.mem_rtakeWhile_imp hc
  · by_cases h : trim s = []
    · exact Or.inl h
    · exact Or.inr ⟨h, trim_head_last s h⟩

/-! ## Termination of the dialogue -/

/-- C16: for every store, plan and finite list of replies followed by the end
of the stream, the dialogue loop returns: the iteration bounds of the embedding
are never reached, and any larger bound gives the same session.  Every pass of
the outer loop that continues has consumed a reply, and every iteration of the
inner loop either stops the loop or goes on with one reply less, so the number
of passes and of corrections is bounded by the number of replies. -/
theorem session_terminates (jokes : List (Str × Str)) (idx : List Nat) (s : Sock) :
    (client_thread jokes idx s).exit ≠ Exit.out_of_fuel
      ∧ (∀ (fuel pos : Nat) (t : Sock), t.inbox.length < fuel →
          joke_loop jokes idx fuel pos t = run jokes idx pos t
            ∧ (run jokes idx pos t).exit ≠ Exit.out_of_fuel)
      ∧ (∀ (pos : Nat) (t : Sock), (joke_round jokes idx pos t).1 = Flow.cont →
          (joke_round jokes idx pos t).2.2.inbox.length < t.inbox.length)
      ∧ (∀ (pos : Nat) (t : Sock), (joke_round jokes idx pos t).1 ≠ Flow.brk Exit.out_of_fuel)
      ∧ (∀ (expected : Str) (fuel : Nat) (resp : Str) (t : Sock), t.inbox.length < fuel →
          (∃ w, who_loop expected fuel resp t = some w ∧ w.2.inbox.length ≤ t.inbox.length)
            ∧ who_loop expected fuel resp t =
              if !iequals resp expected then
                if (t.inbox.headD []).isEmpty then
                  some (((t.send_line (remind expected)).2.send_line knock).2.recv_line)
                else
                  who_loop expected (t.inbox.tail.length + 1) (t.inbox.headD [])
                    ((t.send_line (remind expected)).2.send_line knock).2.recv_line.2
              else some (resp, t)) := by
  refine ⟨?_, ?_, joke_round_cont_inbox jokes idx, joke_round_flow jokes idx, ?_⟩
  · simp only [client_thread, run]
    exact joke_loop_exit jokes idx _ 0 s (Nat.lt_succ_self _)
  · intro fuel pos t h
    refine ⟨?_, ?_⟩
    · exact joke_loop_fuel jokes idx _ _ pos t h (Nat.lt_succ_self _)
    · exact joke_loop_exit jokes idx _ pos t (Nat.lt_succ_self _)
  · intro expected fuel resp t h
    exact ⟨who_loop_some expected fuel resp t h, who_loop_unfold expected fuel resp t h⟩

/-- Instance of C16 on the one-joke store: with three replies, the bound 10
gives the same session as the bound of `run`, and the session ends by a real
exit. -/
theorem session_terminates_lettuce :
    joke_loop lettuce [0] 10 0
        ⟨["Who's there?".toList, "Lettuce".toList, "Lettuce who?".toList], [], []⟩
      = run lettuce [0] 0
          ⟨["Who's there?".toList, "Lettuce".toList, "Lettuce who?".toList], [], []⟩
      ∧ (run lettuce [0] 0
          ⟨["Who's there?".toList, "Lettuce".toList, "Lettuce who?".toList], [], []⟩).exit
        ≠ Exit.out_of_fuel :=
  (session_terminates lettuce [0]
    ⟨["Who's there?".toList, "Lettuce".toList, "Lettuce who?".toList], [], []⟩).2.1 10 0
    ⟨["Who's there?".toList, "Lettuce".toList, "Lettuce who?".toList], [], []⟩ (by decide)

/-! ## The cursor stays in range -/

theorem yes_count_append (a b : List Event) (hb : ∀ r, b.head? ≠ some (Event.recv r)) :
    yes_count (a ++ b) = yes_count a + yes_count b := by
  induction a with
  | nil => simp [yes_count]
  | cons e a ih =>
    have e1 : yes_count (e :: (a ++ b)) = yes_here e (a ++ b) + yes_count (a ++ b) := rfl
    have e2 : yes_count (e :: a) = yes_here e a + yes_count a := rfl
    rw [List.cons_append, e1, e2, ih]
    have : yes_here e (a ++ b) = yes_here e a := by
      cases a with
      | nil =>
        cases e with
        | send line ok =>
          cases b with
          | nil => rfl
          | cons x b =>
            cases x with
            | recv r => exact absurd rfl (hb r)
            | send l o => rfl
            | close => rfl
        | recv r => simp [yes_here]
        | close => simp [yes_here]
      | cons x a => cases e <;> cases x <;> rfl
    rw [this]
    omega

theorem setup_msg_ne_another (setup : Str) : setup_msg setup ≠ another := by
  intro h
  have h2 : (setup_msg setup).getLast? = some ')' := by rw [h]; decide
  unfold setup_msg at h2
  split at h2
  · simp at h2
  · rename_i hc
    by_cases he : setup = []
    · rw [he] at h2
      simp at h2
    · have hne : ¬ (!setup.isEmpty) = false := by simp [List.isEmpty_iff, he]
      simp only [not_and_or, not_not] at hc
      rcases hc with hc | hc | hc
      · simp [List.isEmpty_iff, he] at hc
      · rw [hc] at h2; simp at h2
      · rw [hc] at h2; simp at h2

/-- The inner loop adds no "Y" answer to the log, and what it adds does not
begin with a read. -/
theorem who_loop_yes (expected : Str) :
    ∀ (f : Nat) (resp : Str) (s : Sock) (w : Str × Sock),
      who_loop expected f resp s = some w →
        ∃ ev, w.2.log = s.log ++ ev ∧ (∀ r, ev.head? ≠ some (Event.recv r))
          ∧ yes_count ev = 0 := by
  have hk : knock ≠ another := by decide
  intro f
  induction f with
  | zero => intro resp s w h; simp [who_loop] at h
  | succ n ih =>
    intro resp s w h
    simp only [who_loop] at h
    split at h
    · split at h
      · simp only [Option.some.injEq] at h
        subst h
        refine ⟨[Event.send (remind expected) (s.sendOk.headD true),
          Event.send knock (s.sendOk.tail.headD true), Event.recv (s.inbox.headD [])], ?_, ?_, ?_⟩
        · simp only [recv_line_log, send_line_log, List.append_assoc]; rfl
        · intro r; simp
        · simp [yes_count, yes_here, hk]
      · obtain ⟨ev, hev, hst, hy⟩ := ih _ _ _ h
        refine ⟨[Event.send (remind expected) (s.sendOk.headD true),
          Event.send knock (s.sendOk.tail.headD true), Event.recv (s.inbox.headD [])] ++ ev,
          ?_, ?_, ?_⟩
        · rw [hev]
          simp only [recv_line_log, send_line_log, List.append_assoc]; rfl
        · intro r; simp
        · rw [yes_count_append _ _ hst, hy]
          simp [yes_count, yes_here, hk]
    · simp only [Option.some.injEq] at h
      subst h
      exact ⟨[], by simp, by simp, rfl⟩

/-- The cursor after a pass through the loop body is the cursor before it plus
the number of "Y" answers that the pass added to the log. -/
theorem joke_round_yes (jokes : List (Str × Str)) (idx : List Nat) (pos : Nat) (s : Sock) :
    ∃ ev, (joke_round jokes idx pos s).2.2.log = s.log ++ ev
      ∧ (∀ r, ev.head? ≠ some (Event.recv r))
      ∧ (joke_round jokes idx pos s).2.1 = pos + yes_count ev := by
  have hk : knock ≠ another := by decide
  unfold joke_round
  split
  · exact ⟨_, rfl, by intro r; simp, by simp [yes_count, yes_here]⟩
  · split
    · exact ⟨[], by simp, by intro r; simp, by simp [yes_count]⟩
    · split
      · exact ⟨[], by simp, by intro r; simp, by simp [yes_count]⟩
      · rename_i jidx _ _ setup punch hjk
        have hsm := setup_msg_ne_another setup
        simp only
        split
        · exact ⟨_, rfl, by intro r; simp, by simp [yes_count, yes_here]⟩
        · split
          · refine ⟨[Event.send knock (s.sendOk.headD true), Event.recv (s.inbox.headD [])],
              by simp only [recv_line_log, send_line_log, List.append_assoc]; rfl,
              by intro r; simp, by simp [yes_count, yes_here, hk]⟩
          · split
            · refine ⟨[Event.send knock (s.sendOk.headD true), Event.recv (s.inbox.headD []),
                Event.send say_whos_there (s.sendOk.tail.headD true)],
                by simp only [recv_line_log, send_line_log, List.append_assoc]; rfl,
                by intro r; simp, by simp [yes_count, yes_here, hk]⟩
            · split
              · refine ⟨[Event.send knock (s.sendOk.headD true), Event.recv (s.inbox.headD []),
                  Event.send (setup_msg setup) (s.sendOk.tail.headD true)],
                  by simp only [recv_line_log, send_line_log, List.append_assoc]; rfl,
                  by intro r; simp, by simp [yes_count, yes_here, hk]⟩
              · split
                · refine ⟨[Event.send knock (s.sendOk.headD true),
                    Event.recv (s.inbox.headD []),
                    Event.send (setup_msg setup) (s.sendOk.tail.headD true),
                    Event.recv (s.inbox.tail.headD [])],
                    by simp only [recv_line_log, send_line_log, List.append_assoc]; rfl,
                    by intro r; simp, by simp [yes_count, yes_here, hk, hsm]⟩
                · split
                  · refine ⟨[Event.send knock (s.sendOk.headD true),
                      Event.recv (s.inbox.headD []),
                      Event.send (setup_msg setup) (s.sendOk.tail.headD true),
                      Event.recv (s.inbox.tail.headD [])],
                      by simp only [recv_line_log, send_line_log, List.append_assoc]; rfl,
                      by intro r; simp, by simp [yes_count, yes_here, hk, hsm]⟩
                  · rename_i w hw
                    obtain ⟨ev, hev, hst, hy⟩ := who_loop_yes _ _ _ _ _ hw
                    refine ⟨[Event.send knock (s.sendOk.headD true),
                      Event.recv (s.inbox.headD []),
                      Event.send (setup_msg setup) (s.sendOk.tail.headD true),
                      Event.recv (s.inbox.tail.headD [])] ++ (ev
                      ++ [Event.send punch (w.2.sendOk.headD true),
                          Event.send another (w.2.sendOk.tail.headD true),
                          Event.recv (w.2.inbox.headD [])]), ?_, ?_, ?_⟩
                    · rw [ask_another_log]
                      simp only [send_line_log, hev, recv_line_log, List.append_assoc,
                        send_line_inbox, send_line_sendOk]
                      rfl
                    · intro r; simp
                    · have hst2 : ∀ r, (ev ++ [Event.send punch (w.2.sendOk.headD true),
                          Event.send another (w.2.sendOk.tail.headD true),
                          Event.recv (w.2.inbox.headD [])]).head? ≠ some (Event.recv r) := by
                        intro r
                        cases ev with
                        | nil => simp
                        | cons x ev => simpa using hst r
                      rw [yes_count_append _ _ hst2,
                        yes_count_append _ _ (by intro r; simp), hy]
                      have hA : yes_count [Event.send knock (s.sendOk.headD true),
                          Event.recv (s.inbox.headD []),
                          Event.send (setup_msg setup) (s.sendOk.tail.headD true),
                          Event.recv (s.inbox.tail.headD [])] = 0 := by
                        simp [yes_count, yes_here, hk, hsm]
                      rw [hA]
                      generalize hT : ((w.2.send_line punch).2.send_line another).2 = t1
                      have hin : t1.inbox.headD [] = w.2.inbox.headD [] := by
                        rw [← hT]; rfl
                      generalize w.2.inbox.headD [] = r at hin ⊢
                      by_cases h0 : t1.inbox.headD [] = []
                      · rw [ask_another_empty _ _ h0]
                        rw [hin] at h0
                        simp [yes_count, yes_here, h0]
                      · by_cases hyes : iequals (t1.inbox.headD []) yes = true
                        · rw [ask_another_yes _ _ h0 hyes]
                          rw [hin] at h0 hyes
                          simp [yes_count, yes_here, h0, hyes]
                        · rw [ask_another_no _ _ h0 hyes]
                          rw [hin] at h0 hyes
                          simp [yes_count, yes_here, h0, hyes]

theorem joke_round_cont_lt (jokes : List (Str × Str)) (idx : List Nat) (pos : Nat) (s : Sock)
    (h : (joke_round jokes idx pos s).1 = Flow.cont) : pos < idx.length := by
  by_contra hlt
  rw [joke_round_exhausted jokes idx pos s (Nat.le_of_not_lt hlt)] at h
  simp at h

/-- With a plan whose entries are indices of the store, no pass through the
loop body takes the out-of-range branch. -/
theorem joke_round_in_range (jokes : List (Str × Str)) (idx : List Nat)
    (hidx : ∀ j ∈ idx, j < jokes.length) (pos : Nat) (s : Sock) :
    (joke_round jokes idx pos s).1 ≠ Flow.brk Exit.out_of_range := by
  unfold joke_round
  split
  · simp
  · rename_i hlt
    have hlt2 : pos < idx.length := Nat.lt_of_not_le hlt
    split
    · rename_i hnone
      rw [List.getElem?_eq_getElem hlt2] at hnone
      simp at hnone
    · rename_i jidx hj
      have hmem : jidx ∈ idx := List.getElem?_mem hj
      split
      · rename_i hnone
        rw [List.getElem?_eq_getElem (hidx _ hmem)] at hnone
        simp at hnone
      · simp only
        split
        · simp
        · split
          · simp
          · split
            · simp
            · split
              · simp
              · split
                · simp
                · split
                  · simp
                  · generalize ((_ : Sock).send_line another).2 = t1
                    simp only [ask_another]
                    split
                    · simp
                    · split <;> simp

theorem head?_append_ne_recv (a b : List Event) (ha : ∀ r, a.head? ≠ some (Event.recv r))
    (hb : ∀ r, b.head? ≠ some (Event.recv r)) :
    ∀ r, (a ++ b).head? ≠ some (Event.recv r) := by
  intro r
  cases a with
  | nil => simpa using hb r
  | cons x a => simpa using ha r

theorem joke_round_pos_le (jokes : List (Str × Str)) (idx : List Nat) (pos : Nat) (s : Sock)
    (h : (joke_round jokes idx pos s).1 = Flow.cont) :
    (joke_round jokes idx pos s).2.1 ≤ idx.length := by
  have hlt := joke_round_cont_lt jokes idx pos s h
  rcases joke_round_pos jokes idx pos s with h1 | ⟨h1, _⟩ <;> omega

/-- Along the loop, the cursor is the cursor at the start plus the number of
"Y" answers added to the log, and it does not pass the end of the plan. -/
theorem loop_state_cursor (jokes : List (Str × Str)) (idx : List Nat) :
    ∀ (k pos : Nat) (s : Sock) (p : Nat) (t : Sock),
      loop_state jokes idx k pos s = some (p, t) →
        ∃ ev, t.log = s.log ++ ev ∧ (∀ r, ev.head? ≠ some (Event.recv r))
          ∧ p = pos + yes_count ev ∧ (pos ≤ idx.length → p ≤ idx.length) := by
  intro k
  induction k with
  | zero =>
    intro pos s p t h
    simp only [loop_state, Option.some.injEq, Prod.mk.injEq] at h
    obtain ⟨rfl, rfl⟩ := h
    exact ⟨[], by simp, by intro r; simp, by simp [yes_count], fun h => h⟩
  | succ n ih =>
    intro pos s p t h
    simp only [loop_state] at h
    obtain ⟨ev1, hev1, hst1, hp1⟩ := joke_round_yes jokes idx pos s
    have hle := joke_round_pos_le jokes idx pos s
    rcases hr : joke_round jokes idx pos s with ⟨fl, p1, s1⟩
    rw [hr] at h hev1 hp1 hle
    cases fl with
    | brk why => simp at h
    | cont =>
      simp only at h hev1 hp1 hle
      obtain ⟨ev2, hev2, hst2, hp2, hb2⟩ := ih p1 s1 p t h
      refine ⟨ev1 ++ ev2, by rw [hev2, hev1, List.append_assoc],
        head?_append_ne_recv _ _ hst1 hst2, ?_, fun _ => hb2 (hle trivial)⟩
      rw [yes_count_append _ _ hst2, hp2, hp1]
      omega

theorem joke_loop_cursor (jokes : List (Str × Str)) (idx : List Nat) :
    ∀ (fuel pos : Nat) (s : Sock),
      ∃ ev, (joke_loop jokes idx fuel pos s).sock.log = s.log ++ ev
        ∧ (∀ r, ev.head? ≠ some (Event.recv r))
        ∧ (joke_loop jokes idx fuel pos s).pos = pos + yes_count ev
        ∧ (pos ≤ idx.length → (joke_loop jokes idx fuel pos s).pos ≤ idx.length)
        ∧ ((∀ j ∈ idx, j < jokes.length) →
            (joke_loop jokes idx fuel pos s).exit ≠ Exit.out_of_range) := by
  intro fuel
  induction fuel with
  | zero =>
    intro pos s
    exact ⟨[], by simp [joke_loop], by intro r; simp, by simp [joke_loop, yes_count],
      fun h => by simpa [joke_loop] using h, fun _ => by simp [joke_loop]⟩
  | succ n ih =>
    intro pos s
    obtain ⟨ev1, hev1, hst1, hp1⟩ := joke_round_yes jokes idx pos s
    have hle := joke_round_pos_le jokes idx pos s
    have hrange := joke_round_in_range jokes idx
    have hpos := joke_round_pos jokes idx pos s
    simp only [joke_loop]
    rcases hr : joke_round jokes idx pos s with ⟨fl, p1, s1⟩
    rw [hr] at hev1 hp1 hle hpos
    cases fl with
    | brk why =>
      simp only at hev1 hp1 hpos ⊢
      refine ⟨ev1, hev1, hst1, hp1, ?_, ?_⟩
      · intro hb
        rcases hpos with h1 | ⟨_, h2, _⟩
        · omega
        · simp at h2
      · intro hidx hex
        have := hrange hidx pos s
        rw [hr] at this
        exact this (by simp [hex])
    | cont =>
      simp only at hev1 hp1 hle ⊢
      obtain ⟨ev2, hev2, hst2, hp2, hb2, hx2⟩ := ih p1 s1
      refine ⟨ev1 ++ ev2, by rw [hev2, hev1, List.append_assoc],
        head?_append_ne_recv _ _ hst1 hst2, ?_, fun _ => hb2 (hle trivial), hx2⟩
      rw [yes_count_append _ _ hst2, hp2, hp1]
      omega

/-- C15: for a plan that is a permutation of the indices of the store and every
behaviour of the peer, at the top of the loop after any number of passes the
cursor is at most the size of the store, it is the number of "Y" answers to the
continue prompt in the log so far, the pass from there does not take the
out-of-range branch, and while the cursor is inside the plan `idx[pos]` and
`jokes[idx[pos]]` exist.  The same holds for the cursor at the end of the
session, which does not end in the out-of-range branch. -/
theorem cursor_in_range (jokes : List (Str × Str)) (idx : List Nat)
    (hperm : idx.Perm (List.range jokes.length)) (inbox : List Str) (sendOk : List Bool) :
    (∀ (k p : Nat) (t : Sock),
        loop_state jokes idx k 0 ⟨inbox, sendOk, []⟩ = some (p, t) →
          p ≤ jokes.length ∧ p = yes_count t.log
            ∧ (joke_round jokes idx p t).1 ≠ Flow.brk Exit.out_of_range
            ∧ (p < jokes.length →
                ∃ j setup punch, idx[p]? = some j ∧ j < jokes.length
                  ∧ jokes[j]? = some (setup, punch)))
      ∧ (client_thread jokes idx ⟨inbox, sendOk, []⟩).pos ≤ jokes.length
      ∧ (client_thread jokes idx ⟨inbox, sendOk, []⟩).pos
          = yes_count (client_thread jokes idx ⟨inbox, sendOk, []⟩).sock.log
      ∧ (client_thread jokes idx ⟨inbox, sendOk, []⟩).exit ≠ Exit.out_of_range := by
  have hidx : ∀ j ∈ idx, j < jokes.length := by
    intro j hj
    exact List.mem_range.mp ((hperm.mem_iff).mp hj)
  have hlen : idx.length = jokes.length := by
    rw [hperm.length_eq, List.length_range]
  refine ⟨?_, ?_⟩
  · intro k p t h
    obtain ⟨ev, hev, _, hp, hb⟩ := loop_state_cursor jokes idx k 0 ⟨inbox, sendOk, []⟩ p t h
    simp only [List.nil_append] at hev
    refine ⟨by rw [← hlen]; exact hb (Nat.zero_le _), by rw [hev, hp]; omega,
      joke_round_in_range jokes idx hidx p t, ?_⟩
    intro hlt
    have hlt2 : p < idx.length := by omega
    have hjlt : idx[p] < jokes.length := hidx _ (List.getElem_mem hlt2)
    exact ⟨idx[p], jokes[idx[p]].1, jokes[idx[p]].2, List.getElem?_eq_getElem hlt2, hjlt,
      List.getElem?_eq_getElem hjlt⟩
  · obtain ⟨ev, hev, _, hp, hb, hx⟩ :=
      joke_loop_cursor jokes idx (inbox.length + 1) 0 ⟨inbox, sendOk, []⟩
    simp only [List.nil_append] at hev
    simp only [client_thread, run]
    refine ⟨by rw [← hlen]; exact hb (Nat.zero_le _), ?_, hx hidx⟩
    rw [hev, yes_count_append _ _ (by intro r; simp), hp]
    simp [yes_count, yes_here]

/-- Instance of C15 on the one-joke store with a cooperative client: the cursor
at the end is 1, the number of "Y" answers in the log. -/
theorem cursor_in_range_lettuce :
    (client_thread lettuce [0]
        ⟨["Who's there?".toList, "Lettuce who?".toList, "Y".toList], [], []⟩).pos
      = yes_count (client_thread lettuce [0]
          ⟨["Who's there?".toList, "Lettuce who?".toList, "Y".toList], [], []⟩).sock.log :=
  (cursor_in_range lettuce [0] (List.Perm.refl _)
    ["Who's there?".toList, "Lettuce who?".toList, "Y".toList] []).2.2.1

/-! ## The two duties of the client -/

theorem after_peek_false_cons_other (e : ClientEvent) (t : List ClientEvent)
    (h : is_recv_event e = false) : after_peek_false (e :: t) = after_peek_false t := by
  simp [after_peek_false, List.filter_cons, h]

theorem after_shown_cons_other (e : ClientEvent) (t : List ClientEvent)
    (h : is_recv_event e = false) : after_shown (e :: t) = after_shown t := by
  simp [after_shown, List.filter_cons, h]

theorem after_peek_false_peek (t : List ClientEvent) :
    after_peek_false (ClientEvent.peek false :: t) = after_shown t := by
  simp only [after_peek_false, after_shown, List.filter_cons, is_recv_event, if_true]
  cases t.filter is_recv_event with
  | nil => rfl
  | cons e es => cases e <;> rfl

theorem show_msg_inv (c : Client) (msg : Str) (h : ClientInv c)
    (hm : holds_mutex c.spc = false) (hr : c.rpc = RecvPc.got msg ∨ c.rpc = RecvPc.got_next msg) :
    ClientInv (show_msg c msg) := by
  obtain ⟨ready, running, rpc, spc, trace⟩ := c
  obtain ⟨h1, h2, h3, h4, h5, h6, h7, h8⟩ := h
  simp only at h1 h2 h3 h4 h5 h6 h7 h8 hm hr
  have hend : trace.any is_end = false := by
    cases hq : trace.any is_end with
    | false => rfl
    | true =>
      have := h6 hq
      rcases hr with hr | hr <;> rw [hr] at this <;> simp at this
  unfold show_msg
  split
  · constructor <;> simp_all [credit, signals_ok, is_end, is_sent, is_sent_ok]
  · split
    · constructor <;> simp_all [credit, signals_ok, is_end, is_sent, is_sent_ok]
    · constructor <;>
        simp_all [credit, signals_ok, is_end, is_sent, is_sent_ok, after_shown, is_recv_event]

theorem recv_step_inv (c : Client) (line : Str) (pending : Bool) (h : ClientInv c) :
    ClientInv (recv_step c line pending) := by
  cases hr : c.rpc with
  | got msg =>
    simp only [recv_step, hr]
    split
    · exact h
    · rename_i hm
      exact show_msg_inv c msg h (by simpa using hm) (Or.inl hr)
  | got_next msg =>
    simp only [recv_step, hr]
    split
    · exact h
    · rename_i hm
      exact show_msg_inv c msg h (by simpa using hm) (Or.inr hr)
  | head =>
    obtain ⟨ready, running, rpc, spc, trace⟩ := c
    obtain ⟨h1, h2, h3, h4, h5, h6, h7, h8⟩ := h
    simp only at h1 h2 h3 h4 h5 h6 h7 h8 hr
    subst hr
    simp only [recv_step]
    split <;> constructor <;> simp_all [credit]
  | recv =>
    obtain ⟨ready, running, rpc, spc, trace⟩ := c
    obtain ⟨h1, h2, h3, h4, h5, h6, h7, h8⟩ := h
    simp only at h1 h2 h3 h4 h5 h6 h7 h8 hr
    subst hr
    simp only [recv_step]
    constructor <;> simp_all [credit]
  | inner_head =>
    obtain ⟨ready, running, rpc, spc, trace⟩ := c
    obtain ⟨h1, h2, h3, h4, h5, h6, h7, h8⟩ := h
    simp only at h1 h2 h3 h4 h5 h6 h7 h8 hr
    subst hr
    simp only [recv_step]
    split <;> constructor <;> simp_all [credit]
  | peek =>
    obtain ⟨ready, running, rpc, spc, trace⟩ := c
    obtain ⟨h1, h2, h3, h4, h5, h6, h7, h8⟩ := h
    simp only at h1 h2 h3 h4 h5 h6 h7 h8 hr
    subst hr
    simp only [recv_step]
    split <;> constructor <;>
      simp_all [credit, signals_ok, is_end, is_sent, is_sent_ok, after_peek_false_peek]
  | recv_next =>
    obtain ⟨ready, running, rpc, spc, trace⟩ := c
    obtain ⟨h1, h2, h3, h4, h5, h6, h7, h8⟩ := h
    simp only at h1 h2 h3 h4 h5 h6 h7 h8 hr
    subst hr
    simp only [recv_step]
    constructor <;> simp_all [credit]
  | ready_check =>
    obtain ⟨ready, running, rpc, spc, trace⟩ := c
    obtain ⟨h1, h2, h3, h4, h5, h6, h7, h8⟩ := h
    simp only at h1 h2 h3 h4 h5 h6 h7 h8 hr
    subst hr
    simp only [recv_step]
    split <;> constructor <;> simp_all [credit]
  | set_ready =>
    obtain ⟨ready, running, rpc, spc, trace⟩ := c
    obtain ⟨h1, h2, h3, h4, h5, h6, h7, h8⟩ := h
    simp only at h1 h2 h3 h4 h5 h6 h7 h8 hr
    subst hr
    simp only [recv_step]
    split
    · constructor <;> simp_all [credit]
    · rename_i hm
      have hend : trace.any is_end = false := by
        cases hq : trace.any is_end with
        | false => rfl
        | true => exact absurd (h6 hq) (by simp)
      have hapf := h5 rfl
      constructor
      · intro hh; simp only at hh; exact absurd hh hm
      · simp only [signals_ok, hapf, hend, h2, Bool.not_false, Bool.and_self]
      · intro hh; simp at hh
      · intro hh; simp at hh
      · intro hh; simp at hh
      · intro hh
        simp only [List.any_cons, is_end, Bool.false_or] at hh
        rw [hend] at hh
        exact absurd hh (by simp)
      · simp only [List.countP_cons, is_sent, List.count_cons_self]
        have : credit ⟨true, running, RecvPc.head, spc, ClientEvent.ready_set :: trace⟩ ≤ 1 := by
          unfold credit; split <;> omega
        simp only [Bool.false_eq_true, if_false, Nat.add_zero]
        omega
      · simp only [List.countP_cons, is_sent_ok]
        rw [List.count_cons_of_ne (by simp)]
        simpa using h8
  | done =>
    simp only [recv_step, hr]
    exact h

theorem any_is_end_cons_other (e : ClientEvent) (t : List ClientEvent)
    (h : is_recv_event e = false) : (e :: t).any is_end = t.any is_end := by
  cases e <;> first | (simp [is_recv_event] at h; done) | simp [is_end]

theorem signals_ok_cons_other (e : ClientEvent) (t : List ClientEvent)
    (h : is_recv_event e = false) : signals_ok (e :: t) = signals_ok t := by
  cases e <;> first | (simp [is_recv_event] at h; done) | rfl

/-- A step of the send duty that adds an event keeps what is known about the
events of the receive duty. -/
theorem sender_event_inv (ready running ready2 running2 : Bool) (rpc : RecvPc)
    (spc spc2 : SendPc) (trace : List ClientEvent) (e : ClientEvent)
    (h : ClientInv ⟨ready, running, rpc, spc, trace⟩)
    (he : is_recv_event e = false)
    (hmutex : holds_mutex spc2 = true → ready2 = true ∧ running2 = true)
    (hrun : running2 = running ∨ running2 = false)
    (honce : (e :: trace).countP is_sent + credit ⟨ready2, running2, rpc, spc2, e :: trace⟩
      ≤ (e :: trace).count ClientEvent.ready_set)
    (hcleared : (e :: trace).countP is_sent_ok
      = (e :: trace).count ClientEvent.cleared + (if spc2 = SendPc.clear then 1 else 0)) :
    ClientInv ⟨ready2, running2, rpc, spc2, e :: trace⟩ := by
  obtain ⟨h1, h2, h3, h4, h5, h6, h7, h8⟩ := h
  simp only at h1 h2 h3 h4 h5 h6 h7 h8
  exact {
    mutex := hmutex
    signals := by simp only [signals_ok_cons_other e trace he]; exact h2
    shown := by
      intro hr
      simp only [after_shown_cons_other e trace he]
      exact h3 hr
    check := by
      intro hr
      simp only [after_peek_false_cons_other e trace he]
      rcases h4 hr with h | h
      · exact Or.inl h
      · right
        rcases hrun with h' | h'
        · show running2 = false
          rw [h']; exact h
        · exact h'
    set := by
      intro hr
      simp only [after_peek_false_cons_other e trace he]
      exact h5 hr
    ended := by
      intro hh
      simp only [any_is_end_cons_other e trace he] at hh
      exact h6 hh
    once := honce
    cleared := hcleared }

theorem send_step_inv (c : Client) (typed : Option Str) (ok : Bool) (h : ClientInv c) :
    ClientInv (send_step c typed ok) := by
  obtain ⟨ready, running, rpc, spc, trace⟩ := c
  have h' := h
  obtain ⟨h1, h2, h3, h4, h5, h6, h7, h8⟩ := h'
  simp only at h1 h2 h3 h4 h5 h6 h7 h8
  cases spc with
  | head =>
    simp only [send_step]
    split
    · exact ⟨by simp [holds_mutex], h2, h3, h4, h5, h6,
        by simpa [credit] using h7, by simpa using h8⟩
    · refine ⟨by simp [holds_mutex], h2, h3, h4, h5, h6, ?_, by simpa using h8⟩
      simp only [credit] at h7 ⊢
      split at h7 <;> simp at h7 ⊢ <;> omega
  | wait =>
    simp only [send_step]
    split
    · rename_i hg
      split
      · refine ⟨by simp [holds_mutex], h2, h3, h4, h5, h6, ?_, by simpa using h8⟩
        simp only [credit] at h7 ⊢
        split at h7 <;> simp at h7 ⊢ <;> omega
      · rename_i hrun
        have hrun2 : running = true := by simpa using hrun
        have hready : ready = true := by
          rw [hrun2] at hg
          simpa using hg
        exact ⟨fun _ => ⟨hready, hrun2⟩, h2, h3, h4, h5, h6,
          by simpa [credit] using h7, by simpa using h8⟩
    · exact h
  | input =>
    simp only [send_step]
    have hm := h1 rfl
    cases typed with
    | none =>
      exact ⟨fun _ => hm, h2, h3, h4, h5, h6, by simpa [credit] using h7, by simpa using h8⟩
    | some l =>
      exact ⟨fun _ => hm, h2, h3, h4, h5, h6, by simpa [credit] using h7, by simpa using h8⟩
  | send_n =>
    simp only [send_step]
    have hm := h1 rfl
    apply sender_event_inv ready running ready false rpc SendPc.send_n SendPc.done trace
      (ClientEvent.sent_n ok) h rfl
    · intro hh; simp [holds_mutex] at hh
    · exact Or.inr rfl
    · simp only [List.countP_cons, is_sent, if_true, credit]
      rw [List.count_cons_of_ne (by simp)]
      simp only [credit, hm.1] at h7
      simp at h7 ⊢
      omega
    · simp only [List.countP_cons, is_sent_ok]
      rw [List.count_cons_of_ne (by simp)]
      simpa using h8
  | send l =>
    simp only [send_step]
    have hm := h1 rfl
    simp only [credit, hm.1] at h7
    split
    · apply sender_event_inv ready running ready running rpc (SendPc.send l) SendPc.clear
        trace (ClientEvent.sent l true) h rfl
      · intro _; exact hm
      · exact Or.inl rfl
      · simp only [List.countP_cons, is_sent, if_true, credit]
        rw [List.count_cons_of_ne (by simp)]
        simp at h7 ⊢
        omega
      · simp only [List.countP_cons, is_sent_ok, if_true]
        rw [List.count_cons_of_ne (by simp)]
        simp at h8 ⊢
        omega
    · apply sender_event_inv ready running ready false rpc (SendPc.send l) SendPc.done
        trace (ClientEvent.sent l false) h rfl
      · intro hh; simp [holds_mutex] at hh
      · exact Or.inr rfl
      · simp only [List.countP_cons, is_sent, if_true, credit]
        rw [List.count_cons_of_ne (by simp)]
        simp at h7 ⊢
        omega
      · simp only [List.countP_cons, is_sent_ok]
        rw [List.count_cons_of_ne (by simp)]
        simpa using h8
  | clear =>
    simp only [send_step]
    apply sender_event_inv ready running false running rpc SendPc.clear SendPc.head
      trace ClientEvent.cleared h rfl
    · intro hh; simp [holds_mutex] at hh
    · exact Or.inl rfl
    · simp only [List.countP_cons, is_sent, credit]
      rw [List.count_cons_of_ne (by simp)]
      simp only [credit] at h7
      simp at h7 ⊢
      omega
    · simp only [List.countP_cons, is_sent_ok, List.count_cons_self]
      simp at h8 ⊢
      omega
  | done =>
    simp only [send_step]
    exact h

theorem client_step_inv (c : Client) (m : Move) (h : ClientInv c) :
    ClientInv (client_step c m) := by
  cases m with
  | recv_duty line pending => exact recv_step_inv c line pending h
  | send_duty typed ok => exact send_step_inv c typed ok h

theorem client_start_inv : ClientInv client_start := by
  constructor <;> simp [client_start, holds_mutex, signals_ok, credit]

theorem client_run_inv : ∀ (ms : List Move) (c : Client), ClientInv c →
    ClientInv (client_run c ms) := by
  intro ms
  induction ms with
  | nil => intro c h; exact h
  | cons m ms ih => intro c h; exact ih _ (client_step_inv c m h)

theorem client_run_append (ms1 ms2 : List Move) (c : Client) :
    client_run c (ms1 ++ ms2) = client_run (client_run c ms1) ms2 := by
  induction ms1 generalizing c with
  | nil => rfl
  | cons m ms ih => exact ih _

/-- A step adds at most one event. -/
theorem client_step_trace (c : Client) (m : Move) :
    (client_step c m).trace = c.trace ∨ ∃ e, (client_step c m).trace = e :: c.trace := by
  cases m with
  | recv_duty line pending =>
    simp only [client_step, recv_step]
    split <;> (try split) <;> (try unfold show_msg) <;> (try split) <;> (try split) <;>
      first | exact Or.inl rfl | exact Or.inr ⟨_, rfl⟩
  | send_duty typed ok =>
    simp only [client_step, send_step]
    split <;> (try split) <;> (try split) <;>
      first | exact Or.inl rfl | exact Or.inr ⟨_, rfl⟩

theorem cons_ne_self_trace (e : ClientEvent) (t : List ClientEvent) : t ≠ e :: t := by
  intro h
  have := congrArg List.length h
  simp at this

/-- A line is handed to `send_line` only by a step of the send duty that holds
the mutex. -/
theorem client_step_sent (c : Client) (m : Move) (e : ClientEvent)
    (he : (client_step c m).trace = e :: c.trace) (hs : is_sent e = true) :
    holds_mutex c.spc = true := by
  cases m with
  | recv_duty line pending =>
    exfalso
    simp only [client_step, recv_step] at he
    split at he <;> (try split at he) <;> (try unfold show_msg at he) <;>
      (try split at he) <;> (try split at he) <;>
      first
        | exact cons_ne_self_trace _ _ he
        | (simp only [List.cons.injEq, and_true] at he
           rw [← he] at hs
           simp [is_sent] at hs)
  | send_duty typed ok =>
    simp only [client_step, send_step] at he
    split at he <;> (try split at he) <;> (try split at he) <;>
      first
        | exact absurd he (cons_ne_self_trace _ _)
        | (rename_i hp; rw [hp]; rfl)
        | (rename_i hp _; rw [hp]; rfl)

/-- Only the receive duty at line 129 makes `ready_to_send` true. -/
theorem client_step_ready (c : Client) (m : Move)
    (h : (client_step c m).ready_to_send = true) :
    c.ready_to_send = true ∨ (client_step c m).trace = ClientEvent.ready_set :: c.trace := by
  cases m with
  | recv_duty line pending =>
    simp only [client_step, recv_step] at h ⊢
    split at h <;> (try split at h) <;> (try unfold show_msg at h) <;>
      (try split at h) <;> (try split at h) <;>
      first
        | exact Or.inl h
        | (right
           rename_i hp hm
           simp only [hp, hm]
           rfl)
  | send_duty typed ok =>
    simp only [client_step, send_step] at h ⊢
    split at h <;> (try split at h) <;> (try split at h) <;>
      first
        | exact Or.inl h
        | exact absurd h (by simp)

theorem client_run_trace : ∀ (ms : List Move) (c : Client),
    ∃ new, (client_run c ms).trace = new ++ c.trace := by
  intro ms
  induction ms with
  | nil => intro c; exact ⟨[], rfl⟩
  | cons m ms ih =>
    intro c
    obtain ⟨new, hnew⟩ := ih (client_step c m)
    rcases client_step_trace c m with h | ⟨e, h⟩
    · exact ⟨new, by rw [← h]; exact hnew⟩
    · exact ⟨new ++ [e], by
        rw [List.append_assoc]
        simp only [List.singleton_append]
        rw [← h]
        exact hnew⟩

/-- While `ready_to_send` is false and no new signal is raised, nothing is sent. -/
theorem quiet_until_signal : ∀ (ms : List Move) (c : Client), ClientInv c →
    c.ready_to_send = false →
    ∃ new, (client_run c ms).trace = new ++ c.trace
      ∧ (ClientEvent.ready_set ∉ new →
          (∀ e ∈ new, is_sent e = false) ∧ (client_run c ms).ready_to_send = false) := by
  intro ms
  induction ms with
  | nil =>
    intro c _ hr
    exact ⟨[], rfl, fun _ => ⟨by simp, hr⟩⟩
  | cons m ms ih =>
    intro c hinv hr
    have hinv1 := client_step_inv c m hinv
    cases hr1 : (client_step c m).ready_to_send with
    | false =>
      obtain ⟨new, hnew, himp⟩ := ih (client_step c m) hinv1 hr1
      rcases client_step_trace c m with h | ⟨e, h⟩
      · exact ⟨new, by rw [← h]; exact hnew, himp⟩
      · refine ⟨new ++ [e], ?_, ?_⟩
        · rw [List.append_assoc]
          simp only [List.singleton_append]
          rw [← h]
          exact hnew
        · intro hno
          simp only [List.mem_append, List.mem_singleton, not_or] at hno
          obtain ⟨h1, h2⟩ := himp hno.1
          refine ⟨?_, h2⟩
          intro x hx
          simp only [List.mem_append, List.mem_singleton] at hx
          rcases hx with hx | hx
          · exact h1 x hx
          · rw [hx]
            cases hs : is_sent e with
            | false => rfl
            | true =>
              have := (hinv.mutex (client_step_sent c m e h hs)).1
              rw [hr] at this
              exact absurd this (by simp)
    | true =>
      rcases client_step_ready c m hr1 with h | h
      · rw [hr] at h
        exact absurd h (by simp)
      · obtain ⟨new, hnew⟩ := client_run_trace ms (client_step c m)
        refine ⟨new ++ [ClientEvent.ready_set], ?_, ?_⟩
        · rw [List.append_assoc]
          simp only [List.singleton_append]
          rw [← h]
          exact hnew
        · intro hno
          exact absurd (by simp) hno

/-- In a trace with `signals_ok`, every `ready_set` comes right after a
pending-data check that returned false following a displayed line, and no empty
read and no sentinel is older than it. -/
theorem signals_ok_split : ∀ (post pre : List ClientEvent),
    signals_ok (post ++ ClientEvent.ready_set :: pre) = true →
      after_peek_false pre = true ∧ pre.any is_end = false := by
  intro post
  induction post with
  | nil =>
    intro pre h
    simp only [List.nil_append, signals_ok, Bool.and_eq_true, Bool.not_eq_true'] at h
    exact ⟨h.1.1, h.1.2⟩
  | cons e post ih =>
    intro pre h
    apply ih
    cases e with
    | ready_set =>
      simp only [List.cons_append, signals_ok, Bool.and_eq_true] at h
      exact h.2
    | shown msg => exact h
    | closed => exact h
    | peek more => exact h
    | sent line ok => exact h
    | sent_n ok => exact h
    | cleared => exact h

/-- C14 as stated fails: in this schedule the operator's line is sent between
the display of "X" and the display of "Y", two lines of a burst that the receive
duty saw as immediately available (the check between them returned true); the
send uses the signal raised after "A". -/
theorem send_inside_burst :
    (client_run client_start stale_signal_moves).trace.reverse
      = [ClientEvent.shown "A".toList, ClientEvent.peek false, ClientEvent.ready_set,
         ClientEvent.shown "X".toList, ClientEvent.peek true,
         ClientEvent.sent "hi".toList true, ClientEvent.cleared,
         ClientEvent.shown "Y".toList] := by
  decide

/-- C14, amended: after every sequence of moves of the two duties,
* a line is handed to `send_line` only from a state in which `ready_to_send`
  and `running` are true;
* every successful send of an operator line is matched by a `cleared`, except
  the one the send duty is about to make, and at that point its next step makes
  `ready_to_send` false;
* every `ready_set` in the trace comes right after a pending-data check that
  returned false following a displayed line, with no empty read and no sentinel
  before it, and after an empty read or the sentinel the receive duty is done;
* `ready_to_send` becomes true only by such a `ready_set`, and while it is false
  and no new signal is raised nothing is sent;
* the number of lines sent is at most the number of signals. -/
theorem client_duties (ms : List Move) (c : Client) (hc : c = client_run client_start ms)
    (m : Move) :
    (∀ e, (client_step c m).trace = e :: c.trace → is_sent e = true →
        c.ready_to_send = true ∧ c.running = true)
      ∧ c.trace.countP is_sent_ok
          = c.trace.count ClientEvent.cleared + (if c.spc = SendPc.clear then 1 else 0)
      ∧ (c.spc = SendPc.clear → ∀ typed ok,
          (send_step c typed ok).ready_to_send = false
            ∧ (send_step c typed ok).trace = ClientEvent.cleared :: c.trace)
      ∧ (∀ post pre, c.trace = post ++ ClientEvent.ready_set :: pre →
          after_peek_false pre = true ∧ pre.any is_end = false)
      ∧ (c.trace.any is_end = true → c.rpc = RecvPc.done)
      ∧ ((client_step c m).ready_to_send = true →
          c.ready_to_send = true
            ∨ (client_step c m).trace = ClientEvent.ready_set :: c.trace)
      ∧ (∀ ms2, c.ready_to_send = false →
          ∃ new, (client_run c ms2).trace = new ++ c.trace
            ∧ (ClientEvent.ready_set ∉ new → ∀ e ∈ new, is_sent e = false))
      ∧ c.trace.countP is_sent ≤ c.trace.count ClientEvent.ready_set := by
  have hinv : ClientInv c := by
    rw [hc]
    exact client_run_inv ms _ client_start_inv
  refine ⟨?_, hinv.cleared, ?_, ?_, hinv.ended, client_step_ready c m, ?_, ?_⟩
  · intro e he hs
    exact hinv.mutex (client_step_sent c m e he hs)
  · intro hclear typed ok
    constructor
    · simp only [send_step, hclear]
    · simp only [send_step, hclear]
  · intro post pre hsplit
    have := hinv.signals
    rw [hsplit] at this
    exact signals_ok_split post pre this
  · intro ms2 hr
    obtain ⟨new, hnew, himp⟩ := quiet_until_signal ms2 c hinv hr
    exact ⟨new, hnew, fun hno => (himp hno).1⟩
  · have := hinv.once
    omega

/-- Instance of the amended C14 on the schedule with the unused signal: one
line is sent, and two signals were raised. -/
theorem client_duties_stale_signal :
    (client_run client_start stale_signal_moves).trace.countP is_sent
      ≤ (client_run client_start stale_signal_moves).trace.count ClientEvent.ready_set :=
  (client_duties stale_signal_moves (client_run client_start stale_signal_moves) rfl
    (Move.recv_duty [] false)).2.2.2.2.2.2.2

/-! ## What does hold of `recv_line` and of the store -/

theorem trim_length_le (s : Str) : (trim s).length ≤ s.length := by
  rw [trim_eq]
  have h1 := (List.rdropWhile_prefix isspace (s.dropWhile isspace)).length_le
  have h2 := (List.dropWhile_suffix (l := s) isspace).length_le
  omega

/-- For every byte stream `recv_line` returns a string of at most 2001 bytes. -/
theorem recv_loop_length_le : ∀ (stream : List Char) (res : Str), res.length ≤ 2000 →
    (recv_loop res stream).1.length ≤ 2001 := by
  intro stream
  induction stream with
  | nil => intro res _; simp [recv_loop]
  | cons c rest ih =>
    intro res hres
    simp only [recv_loop]
    split
    · have := trim_length_le res
      simp only
      omega
    · split
      · have := trim_length_le (res ++ [c])
        simp only [List.length_append, List.length_singleton] at this ⊢
        omega
      · rename_i hlen
        simp only [List.length_append, List.length_singleton] at hlen
        exact ih _ (by simp; omega)

/-- Every stored joke has a non-empty, trimmed setup and a trimmed punchline. -/
theorem load_jokes_stored : ∀ (n : Nat) (lines : List Str), lines.length ≤ n →
    ∀ p ∈ load_jokes lines, p.1 ≠ [] ∧ trim p.1 = p.1 ∧ trim p.2 = p.2 := by
  intro n
  induction n with
  | zero =>
    intro lines hlen p hp
    have : lines = [] := List.length_eq_zero.mp (by omega)
    rw [this] at hp
    simp [load_jokes] at hp
  | succ n ih =>
    intro lines hlen p hp
    match lines, hlen, hp with
    | [], _, hp => simp [load_jokes] at hp
    | [_], _, hp => simp [load_jokes] at hp
    | line1 :: line2 :: rest, hlen, hp =>
      simp only [load_jokes] at hp
      simp only [List.length_cons] at hlen
      split at hp
      · rename_i hne
        rcases List.mem_cons.mp hp with h | h
        · rw [h]
          exact ⟨by simpa [List.isEmpty_iff] using hne, trim_trim _, trim_trim _⟩
        · exact ih rest (by omega) p h
      · exact ih rest (by omega) p hp

/-! ## The cooperative session on the wire -/

/-- A line of at most 2000 bytes is delivered as one message, trimmed. -/
theorem deliver_line (rest : List Char) :
    ∀ (r res : Str), '\n' ∉ r → res.length + r.length ≤ 2000 →
      deliver res (r ++ '\n' :: rest) = trim (res ++ r) :: deliver [] rest := by
  intro r
  induction r with
  | nil =>
    intro res _ _
    simp only [List.nil_append, deliver, if_true, List.append_nil]
  | cons c r ih =>
    intro res hr hlen
    have hc : c ≠ '\n' := fun h => hr (by simp [h])
    have hr2 : '\n' ∉ r := fun h => hr (List.mem_cons_of_mem _ h)
    simp only [List.length_cons] at hlen
    have e : (c :: r) ++ '\n' :: rest = c :: (r ++ '\n' :: rest) := rfl
    have h1 : ¬ (res ++ [c]).length > 2000 := by
      simp only [List.length_append, List.length_singleton]
      omega
    have h2 : (res ++ [c]).length + r.length ≤ 2000 := by
      simp only [List.length_append, List.length_singleton]
      omega
    rw [e, deliver, if_neg hc, if_neg h1, ih (res ++ [c]) hr2 h2]
    simp

/-- The first message delivered for a line of any length. -/
theorem deliver_cons (rest : List Char) :
    ∀ (r res : Str), '\n' ∉ r → res.length ≤ 2000 →
      ∃ more, deliver res (r ++ '\n' :: rest) = trim ((res ++ r).take 2001) :: more := by
  intro r
  induction r with
  | nil =>
    intro res _ hres
    refine ⟨deliver [] rest, ?_⟩
    simp only [List.nil_append, deliver, if_true, List.append_nil]
    rw [List.take_of_length_le (by omega)]
  | cons c r ih =>
    intro res hr hres
    have hc : c ≠ '\n' := fun h => hr (by simp [h])
    have hr2 : '\n' ∉ r := fun h => hr (List.mem_cons_of_mem _ h)
    have e : (c :: r) ++ '\n' :: rest = c :: (r ++ '\n' :: rest) := rfl
    rw [e, deliver, if_neg hc]
    split
    · rename_i hlen
      simp only [List.length_append, List.length_singleton] at hlen
      have h2 : (res ++ c :: r).take 2001 = res ++ [c] := by
        have : res ++ c :: r = (res ++ [c]) ++ r := by simp
        rw [this, List.take_left' (by simp; omega)]
      rw [h2]
      exact ⟨_, rfl⟩
    · rename_i hlen
      simp only [List.length_append, List.length_singleton] at hlen
      obtain ⟨more, hmore⟩ := ih (res ++ [c]) hr2 (by simp; omega)
      refine ⟨more, ?_⟩
      rw [hmore]
      simp

theorem trimmed_head (s : Str) (hs : s ≠ []) (ht : trim s = s) : isspace (s.head hs) = false := by
  have key : ∀ (t : Str) (h : t ≠ []), t = s → isspace (t.head h) = false →
      isspace (s.head hs) = false := by
    intro t h e
    subst e
    exact id
  exact key (trim s) (by rw [ht]; exact hs) ht (trim_head_last s _).1

/-- The cooperative second reply to a stored setup comes through `trim` unchanged. -/
theorem trim_coop_line (setup : Str) (hs : setup ≠ []) (ht : trim setup = setup) :
    trim (setup ++ who) = setup ++ who := by
  obtain ⟨hc0, hch, hcl⟩ := variant_ends setup (setup ++ who) hs (trimmed_head setup hs ht)
    (iequals_refl _)
  have := trim_pad [] (setup ++ who) [] (by simp) (by simp) hc0 hch hcl
  simpa using this

/-- The bytes of the cooperative client are delivered as its three replies per joke. -/
theorem deliver_coop (jokes : List (Str × Str))
    (hstore : ∀ p ∈ jokes, p.1 ≠ [] ∧ trim p.1 = p.1 ∧ '\n' ∉ p.1
      ∧ (p.1 ++ " who?".toList).length ≤ 2000) :
    ∀ plan : List Nat, (∀ j ∈ plan, j < jokes.length) →
      deliver [] (coop_bytes jokes plan) = coop_replies jokes plan := by
  intro plan
  induction plan with
  | nil => intro _; rfl
  | cons j plan ih =>
    intro hp
    have hj : j < jokes.length := hp j (List.mem_cons_self _ _)
    have hjk : jokes[j]? = some (jokes[j].1, jokes[j].2) := by
      rw [List.getElem?_eq_getElem hj]
    obtain ⟨h0, ht, hn, hl⟩ := hstore jokes[j] (List.getElem_mem hj)
    have e1 : coop_bytes jokes (j :: plan)
        = whos_there ++ '\n' :: ((jokes[j].1 ++ who) ++ '\n' :: (yes ++ '\n' ::
            coop_bytes jokes plan)) := by
      simp only [coop_bytes, List.flatMap_cons, hjk]
      have ey : "Y\n".toList = yes ++ ['\n'] := rfl
      rw [ey]
      simp only [whos_there, who, List.append_assoc, List.cons_append, List.nil_append]
    have e2 : coop_replies jokes (j :: plan)
        = whos_there :: (jokes[j].1 ++ who) :: yes :: coop_replies jokes plan := by
      simp only [coop_replies, List.flatMap_cons, hjk]
      rfl
    have hn2 : '\n' ∉ jokes[j].1 ++ who := by
      intro h
      rcases List.mem_append.mp h with h | h
      · exact hn h
      · revert h; decide
    rw [e1, e2, deliver_line _ whos_there [] (by decide) (by decide),
      deliver_line _ (jokes[j].1 ++ who) [] hn2 (by rw [List.length_nil, Nat.zero_add]; exact hl),
      deliver_line _ yes [] (by decide) (by decide),
      ih (fun i hi => hp i (List.mem_cons_of_mem _ hi))]
    simp only [List.nil_append, trim_coop_line _ h0 ht]
    have t1 : trim whos_there = whos_there := by decide
    have t2 : trim yes = yes := by decide
    rw [t1, t2]

theorem setup_msg_punctuated (setup : Str) (hs : setup ≠ []) :
    setup_msg setup
      = if setup.getLast? = some '.' ∨ setup.getLast? = some '!' then setup
        else setup ++ ['.'] := by
  unfold setup_msg
  have h0 : setup.isEmpty = false := by
    cases setup with
    | nil => exact absurd rfl hs
    | cons c t => rfl
  by_cases h1 : setup.getLast? = some '.'
  · simp [h1, h0]
  · by_cases h2 : setup.getLast? = some '!'
    · simp [h1, h2, h0]
    · simp [h1, h2, h0]

/-- The lines of the cooperative dialogue, with the literal texts of the protocol. -/
theorem told_transcript (jokes : List (Str × Str)) (hstore : ∀ p ∈ jokes, p.1 ≠ []) :
    ∀ plan : List Nat, told jokes plan = transcript jokes plan := by
  intro plan
  induction plan with
  | nil => rfl
  | cons j plan ih =>
    simp only [told, transcript, List.flatMap_cons] at ih ⊢
    rw [ih]
    congr 1
    cases hjk : jokes[j]? with
    | none => rfl
    | some p =>
      obtain ⟨setup, punch⟩ := p
      have hs : setup ≠ [] := hstore (setup, punch) (List.getElem?_mem hjk)
      simp only [setup_msg_punctuated setup hs]
      rfl

/-- The log of a session contains the log of its first pass. -/
theorem run_log_extends (jokes : List (Str × Str)) (idx : List Nat) (pos : Nat) (s : Sock) :
    ∃ ev, (run jokes idx pos s).sock.log = (joke_round jokes idx pos s).2.2.log ++ ev := by
  rw [run_unfold]
  rcases h : joke_round jokes idx pos s with ⟨fl, p, t⟩
  cases fl with
  | brk why => exact ⟨[], by simp [after_round]⟩
  | cont =>
    obtain ⟨ev, hev, _⟩ := joke_loop_cursor jokes idx (t.inbox.length + 1) p t
    exact ⟨ev, by simpa [after_round, run] using hev⟩

/-- A wrong reply to the setup line when every send succeeds. -/
theorem joke_round_reject_ok (jokes : List (Str × Str)) (idx : List Nat) (pos j : Nat)
    (setup punch : Str) (hj : idx[pos]? = some j) (hjk : jokes[j]? = some (setup, punch))
    (r1 : Str) (h1 : iequals r1 whos_there = true) (r2 : Str) (inbox : List Str)
    (log : List Event) (h2 : r2 ≠ []) (hne : iequals r2 (setup ++ who) = false) :
    ∃ tail,
      (joke_round jokes idx pos ⟨r1 :: r2 :: inbox, [], log⟩).2.2.log
        = log ++ [Event.send knock true, Event.recv r1, Event.send (setup_msg setup) true,
                  Event.recv r2, Event.send (remind (setup ++ who)) true,
                  Event.send knock true]
            ++ tail := by
  rw [joke_round_reach_who jokes idx pos j setup punch hj hjk r1 r2 inbox [] log (by rfl)
    (by rfl) h1 h2]
  obtain ⟨w, hw, _⟩ := who_loop_some (setup ++ who) (inbox.length + 1) r2
    ⟨inbox, ([] : List Bool).tail.tail,
      log ++ [Event.send knock true, Event.recv r1, Event.send (setup_msg setup) true,
              Event.recv r2]⟩ (Nat.lt_succ_self _)
  obtain ⟨tail, htail⟩ := who_loop_first _ _ _ _ _ (Nat.lt_succ_self _) hne hw
  rw [hw]
  simp only [ask_another_log, send_line_log, htail, List.tail_nil, List.headD_nil,
    List.append_assoc, List.cons_append, List.nil_append]
  exact ⟨_, rfl⟩

theorem coop_bytes_single (setup punch : Str) :
    coop_bytes [(setup, punch)] [0]
      = "Who's there?".toList ++ '\n' :: (setup ++ " who?".toList ++ '\n' :: "Y\n".toList) := by
  simp [coop_bytes]

/-- For a setup whose cooperative reply is longer than `recv_line` reads, the
cooperative client is sent the reminder in place of the punchline. -/
theorem long_setup_reminded (setup punch : Str) (hs : setup ≠ [])
    (hh : isspace (setup.head hs) = false) (hn : '\n' ∉ setup)
    (hl : 2001 < (setup ++ who).length) :
    ∃ tail,
      sent_lines (client_thread [(setup, punch)] [0]
          ⟨deliver [] (coop_bytes [(setup, punch)] [0]), [], []⟩).sock.log
        = knock :: setup_msg setup :: remind (setup ++ who) :: tail := by
  have hj : ([0] : List Nat)[0]? = some 0 := rfl
  have hjk : [(setup, punch)][0]? = some (setup, punch) := rfl
  have eb : coop_bytes [(setup, punch)] [0]
      = whos_there ++ '\n' :: ((setup ++ who) ++ '\n' :: "Y\n".toList) := coop_bytes_single _ _
  have hn2 : '\n' ∉ setup ++ who := by
    intro h
    rcases List.mem_append.mp h with h | h
    · exact hn h
    · revert h; decide
  obtain ⟨more, hmore⟩ := deliver_cons "Y\n".toList (setup ++ who) [] hn2 (by simp)
  have hin : deliver [] (coop_bytes [(setup, punch)] [0])
      = whos_there :: trim ((setup ++ who).take 2001) :: more := by
    rw [eb, deliver_line _ whos_there [] (by decide) (by decide), hmore]
    have t1 : trim ([] ++ whos_there) = whos_there := by decide
    rw [t1]
    rfl
  have h2 : trim ((setup ++ who).take 2001) ≠ [] := by
    intro h
    have hall := (trim_eq_nil_iff _).mp h
    cases setup with
    | nil => exact absurd rfl hs
    | cons c t =>
      have := hall c (by simp)
      simp only [List.head_cons] at hh
      rw [hh] at this
      exact absurd this (by decide)
  have hne : iequals (trim ((setup ++ who).take 2001)) (setup ++ who) = false := by
    cases hiq : iequals (trim ((setup ++ who).take 2001)) (setup ++ who) with
    | false => rfl
    | true =>
      exfalso
      have h1 := iequals_length hiq
      have h3 := trim_length_le ((setup ++ who).take 2001)
      have h4 : ((setup ++ who).take 2001).length ≤ 2001 := by
        rw [List.length_take]
        exact Nat.min_le_left _ _
      omega
  obtain ⟨tail, htail⟩ := joke_round_reject_ok [(setup, punch)] [0] 0 0 setup punch hj hjk
    whos_there (iequals_refl _) _ more [] h2 hne
  obtain ⟨ev, hev⟩ := run_log_extends [(setup, punch)] [0] 0
    ⟨whos_there :: trim ((setup ++ who).take 2001) :: more, [], []⟩
  refine ⟨knock :: sent_lines tail ++ sent_lines ev, ?_⟩
  rw [hin]
  simp only [client_thread, hev, htail]
  simp [sent_lines]

theorem remind_length (expected : Str) : (remind expected).length = expected.length + 45 := by
  simp only [remind, List.length_append]
  have e1 : ("You are supposed to say, \"".toList).length = 26 := rfl
  have e2 : ("\". Let's try again.".toList).length = 19 := rfl
  omega

/-- The cooperative session for a setup of `n` letters, `n` over 1996. -/
theorem long_setup_a (n : Nat) (hn : 1997 ≤ n) (punch : Str) :
    ∃ tail,
      sent_lines (client_thread [(List.replicate n 'a', punch)] [0]
          ⟨deliver []
            ("Who's there?".toList
              ++ '\n' :: (List.replicate n 'a' ++ " who?".toList ++ '\n' :: "Y\n".toList)),
            [], []⟩).sock.log
        = "Knock knock!".toList :: (List.replicate n 'a' ++ ['.'])
            :: ("You are supposed to say, \"".toList
                  ++ (List.replicate n 'a' ++ " who?".toList)
                  ++ "\". Let's try again.".toList) :: tail := by
  have hs : List.replicate n 'a' ≠ [] := by
    intro h
    have := congrArg List.length h
    simp only [List.length_replicate, List.length_nil] at this
    omega
  have hh : isspace ((List.replicate n 'a').head hs) = false := by
    rw [List.head_replicate]; decide
  have hnl : '\n' ∉ List.replicate n 'a' := by
    intro h
    exact absurd (List.mem_replicate.mp h).2 (by decide)
  have hl : 2001 < (List.replicate n 'a' ++ who).length := by
    have hw : who.length = 5 := rfl
    simp only [List.length_append, List.length_replicate, hw]
    omega
  have hm : setup_msg (List.replicate n 'a') = List.replicate n 'a' ++ ['.'] := by
    have hg : (List.replicate n 'a').getLast? = some 'a' := by
      rw [List.getLast?_replicate, if_neg (by omega)]
    rw [setup_msg_punctuated _ hs, hg, if_neg (by decide)]
  obtain ⟨tail, htail⟩ := long_setup_reminded (List.replicate n 'a') punch hs hh hnl hl
  rw [coop_bytes_single, hm] at htail
  exact ⟨tail, htail⟩

/-- C1 as stated fails for a store whose setup is long: with the one joke of
setup "a" 1997 times and punchline "b", the cooperative client puts
"Who's there?", the 2002 bytes of `setup + " who?"` and "Y" on the wire, and
the third line sent by `client_thread` is the reminder, not the punchline; so
the lines sent are not the four lines of the joke followed by the sentinel. -/
theorem long_setup_not_told :
    (sent_lines (client_thread [(List.replicate 1997 'a', "b".toList)] [0]
          ⟨deliver []
            ("Who's there?".toList
              ++ '\n' :: (List.replicate 1997 'a' ++ " who?".toList ++ '\n' :: "Y\n".toList)),
            [], []⟩).sock.log).take 3
        = ["Knock knock!".toList, List.replicate 1997 'a' ++ ['.'],
           "You are supposed to say, \"".toList
             ++ (List.replicate 1997 'a' ++ " who?".toList) ++ "\". Let's try again.".toList]
      ∧ sent_lines (client_thread [(List.replicate 1997 'a', "b".toList)] [0]
          ⟨deliver []
            ("Who's there?".toList
              ++ '\n' :: (List.replicate 1997 'a' ++ " who?".toList ++ '\n' :: "Y\n".toList)),
            [], []⟩).sock.log
        ≠ ["Knock knock!".toList, List.replicate 1997 'a' ++ ['.'], "b".toList,
           "Would you like to listen to another? (Y/N)".toList,
           "I have no more jokes to tell.".toList] := by
  obtain ⟨tail, h⟩ := long_setup_a 1997 (Nat.le_refl _) "b".toList
  rw [h]
  refine ⟨rfl, ?_⟩
  intro hc
  injection hc with _ hc
  injection hc with _ hc
  injection hc with hc _
  have h3 : (remind (List.replicate 1997 'a' ++ " who?".toList)).length
      = ("b".toList).length := congrArg List.length hc
  rw [remind_length] at h3
  have h4 : ("b".toList).length = 1 := rfl
  omega

/-- C1, amended: for a non-empty store as `main` loads it (every setup
non-empty, trimmed and free of newlines) in which every `setup + " who?"` has
at most 2000 bytes, a plan that is a permutation of the indices of the store,
and a fully cooperative client whose lines "Who's there?", `setup + " who?"`
and "Y" arrive on the wire, each ended by a newline, with all sends succeeding:
the lines sent by `client_thread` are, for each joke in plan order,
"Knock knock!", the setup with terminal punctuation, the punchline and
"Would you like to listen to another? (Y/N)", followed by one final
"I have no more jokes to tell."; the session ends by exhausting the plan with
the cursor at its end, and every joke of the store occurs once in the plan. -/
theorem cooperative_session (jokes : List (Str × Str)) (idx : List Nat)
    (hne : jokes ≠ []) (hperm : idx.Perm (List.range jokes.length))
    (hstore : ∀ p ∈ jokes, p.1 ≠ [] ∧ trim p.1 = p.1 ∧ '\n' ∉ p.1
      ∧ (p.1 ++ " who?".toList).length ≤ 2000) :
    sent_lines (client_thread jokes idx ⟨deliver [] (coop_bytes jokes idx), [], []⟩).sock.log
        = transcript jokes idx ++ ["I have no more jokes to tell.".toList]
      ∧ (client_thread jokes idx ⟨deliver [] (coop_bytes jokes idx), [], []⟩).exit
        = Exit.exhausted
      ∧ (client_thread jokes idx ⟨deliver [] (coop_bytes jokes idx), [], []⟩).pos = idx.length
      ∧ idx ≠ []
      ∧ ∀ j, j < jokes.length → idx.count j = 1 := by
  have hidx : ∀ j ∈ idx, j < jokes.length := by
    intro j hj
    exact List.mem_range.mp ((hperm.mem_iff).mp hj)
  obtain ⟨h1, _, h3, h4, h5, h6⟩ := coop_replies_session jokes idx hne hperm
  rw [deliver_coop jokes hstore idx hidx]
  refine ⟨?_, h3, h4, h5, h6⟩
  rw [h1, told_transcript jokes (fun p hp => (hstore p hp).1)]
  rfl

/-- Instance of the amended C1 on the one-joke store: the bytes
"Who's there?\nLettuce who?\nY\n" make the server tell the joke once and then
send the sentinel. -/
theorem cooperative_session_lettuce :
    sent_lines (client_thread lettuce [0]
        ⟨deliver [] "Who's there?\nLettuce who?\nY\n".toList, [], []⟩).sock.log
      = ["Knock knock!".toList, "Lettuce.".toList, "Lettuce in, it's cold out here!".toList,
         "Would you like to listen to another? (Y/N)".toList,
         "I have no more jokes to tell.".toList] :=
  (cooperative_session lettuce [0] (by decide) (List.Perm.refl _) (by decide)).1

end KnockKnock
